import Mathlib

/-!
# Never-Judge: the editor completion subsystem

A shallow embedding of the completion code of `src/widgets/code.cpp`:
`CompletionList` (the popup list with the cached candidate batch) and the
completion-related slots of `CodeEditWidget`.

Modelling conventions.

* A `QString` is the list of its characters; `QString::startsWith` with the
  default `Qt::CaseSensitive` is `List.isPrefixOf`, `QString::isEmpty` is
  `List.isEmpty` and `==` is equality of the lists.
* A widget is a record of the fields its methods read and write; a method is a
  function from the record to the new record.  Signals that a method emits and
  calls that leave the modelled classes (language server, base-class key
  handlers) are returned as a list of `Effect`s, in program order.
* A coroutine (`QCoro::Task<>`) is cut at its `co_await` on the language
  server: the part before it returns the requests that were sent and the local
  variables that stay alive in the coroutine frame, the part after it takes the
  server's answer as an argument.
* An edit of the document that a slot makes itself raises `textChanged`, and
  the slot `onTextChanged` connected to it runs at once, inside the running
  slot, up to its first suspension.  Edits made by the toolkit (typing, the
  base-class key handler) arrive as events of their own.
* Widget geometry, fonts, icons and focus are not modelled.
-/

namespace NeverJudge

/-- A `QString`, as the sequence of its characters. -/
abbrev QString := List Char

/-- `CompletionItem::ItemKind`, the kinds the icon table of
`CompletionList::addCompletionItem` knows plus `Text` for the rest. -/
inductive ItemKind where
  | Class
  | Function
  | Variable
  | Module
  | Keyword
  | Text
  deriving DecidableEq, Repr

/-- `CompletionItem` of the language-server interface, with the three fields
the widget code reads. -/
structure CompletionItem where
  label : QString
  insertText : QString
  kind : ItemKind
  deriving DecidableEq, Repr

/-- `CompletionResponse`: the answer to `server->completion`. -/
structure CompletionResponse where
  incomplete : Bool
  items : List CompletionItem
  deriving DecidableEq, Repr

/-- The state of a `CompletionList` (a `QListWidget` popup).
`completions` is the member of that name; `rows` are the list-widget items in
display order, each remembering the candidate it was created from (its
`Qt::UserRole` data is that candidate's `insertText`); `currentRow` is the
list widget's current row, `none` for no current item; `visible` is the
widget's visibility. -/
structure CompletionList where
  completions : List CompletionItem
  rows : List CompletionItem
  currentRow : Option Nat
  visible : Bool
  deriving DecidableEq, Repr

namespace CompletionList

/-- `QListWidget::clear`: removes every row; no current item is left. -/
def clear (cl : CompletionList) : CompletionList :=
  { cl with rows := [], currentRow := none }

/-- `QListWidget::count`. -/
def count (cl : CompletionList) : Nat := cl.rows.length

/-- `CompletionList::addCompletionItem`: a new `QListWidgetItem` is appended
to the list widget and carries the candidate's `insertText` as user data. -/
def addCompletionItem (cl : CompletionList) (item : CompletionItem) : CompletionList :=
  { cl with rows := cl.rows ++ [item] }

/-- `CompletionList::update`: `clear()`, then the range-for loop over
`completions` that adds every candidate whose `insertText` starts with
`curWord`. -/
def update (cl : CompletionList) (curWord : QString) : CompletionList :=
  cl.completions.foldl
    (fun acc item =>
      if curWord.isPrefixOf item.insertText then acc.addCompletionItem item else acc)
    cl.clear

/-- `QWidget::hide`. -/
def hide (cl : CompletionList) : CompletionList :=
  { cl with visible := false }

/-- `QListWidget::setCurrentRow(0)`: row 0 becomes current when it exists. -/
def setCurrentRow0 (cl : CompletionList) : CompletionList :=
  { cl with currentRow := if cl.rows.isEmpty then none else some 0 }

/-- `CompletionList::display`: `setCurrentRow(0); show(); setFocus();
updateHeight();`. -/
def display (cl : CompletionList) : CompletionList :=
  { cl.setCurrentRow0 with visible := true }

/-- `QListWidget::currentItem`: the row at the current index, if any. -/
def currentItem (cl : CompletionList) : Option CompletionItem :=
  match cl.currentRow with
  | none => none
  | some i => cl.rows[i]?

end CompletionList

/-! ## Key events and effects -/

/-- A `QKeyEvent`: the key code, the modifier mask and the text it carries. -/
structure QKeyEvent where
  key : Nat
  modifiers : Nat
  text : QString
  deriving DecidableEq, Repr

/-- `Qt::Key_Escape`. -/
def Key_Escape : Nat := 0x01000000
/-- `Qt::Key_Tab`. -/
def Key_Tab : Nat := 0x01000001
/-- `Qt::Key_Up`. -/
def Key_Up : Nat := 0x01000013
/-- `Qt::Key_Down`. -/
def Key_Down : Nat := 0x01000015

/-- What a slot sends out of the modelled classes, in program order. -/
inductive Effect where
  /-- The call `server->didOpen` with the full text of the document. -/
  | didOpen (text : QString)
  /-- The call `server->completion` at a zero-based line and column. -/
  | completion (line : Nat) (column : Nat)
  /-- The signal `CodeEditWidget::modify`. -/
  | modify
  /-- The signal `CompletionList::completionSelected`. -/
  | completionSelected (text : QString)
  /-- The call `codeEdit->keyPressEvent(e)` made by the popup. -/
  | codeEditKeyPress (e : QKeyEvent)
  deriving DecidableEq, Repr

/-- Whether an effect is a call to the language server. -/
def Effect.isServerCall : Effect → Bool
  | Effect.didOpen _ => true
  | Effect.completion _ _ => true
  | _ => false

/-- Whether an effect is the signal `completionSelected`. -/
def Effect.isCompletionSelected : Effect → Bool
  | Effect.completionSelected _ => true
  | _ => false

/-! ## The document and its cursor -/

/-- A `QTextCursor` on a document: the text it edits, its anchor and its
position. -/
structure QTextCursor where
  text : QString
  anchor : Nat
  position : Nat
  deriving DecidableEq, Repr

namespace QTextCursor

/-- `QTextCursor::selectionStart`. -/
def selectionStart (c : QTextCursor) : Nat := min c.anchor c.position

/-- `QTextCursor::selectionEnd`. -/
def selectionEnd (c : QTextCursor) : Nat := max c.anchor c.position

/-- `QTextCursor::selectedText`. -/
def selectedText (c : QTextCursor) : QString :=
  (c.text.take c.selectionEnd).drop c.selectionStart

/-- `QTextCursor::removeSelectedText`: the selected range leaves the document
and the cursor collapses to where it started. -/
def removeSelectedText (c : QTextCursor) : QTextCursor :=
  { text := c.text.take c.selectionStart ++ c.text.drop c.selectionEnd,
    anchor := c.selectionStart,
    position := c.selectionStart }

/-- `QTextCursor::insertText`: a selection is replaced, otherwise the text goes
in at the position; the cursor ends behind the inserted text. -/
def insertText (c : QTextCursor) (s : QString) : QTextCursor :=
  let r := c.removeSelectedText
  { text := r.text.take r.position ++ s ++ r.text.drop r.position,
    anchor := r.position + s.length,
    position := r.position + s.length }

/-- `QTextCursor::blockNumber`: the number of line breaks before the
position. -/
def blockNumber (c : QTextCursor) : Nat :=
  (c.text.take c.position).count '\n'

/-- `QTextCursor::columnNumber`: the distance from the start of the line. -/
def columnNumber (c : QTextCursor) : Nat :=
  ((c.text.take c.position).reverse.takeWhile (fun ch => ch != '\n')).length

end QTextCursor

/-- The toolkit's word segmentation behind
`QTextCursor::select(QTextCursor::WordUnderCursor)`: from the text and the
cursor position to the anchor and the position of the selection.  It is
toolkit code, so the editor's slots take it as a parameter. -/
abbrev WordSelect := QString → Nat → Nat × Nat

/-- `cursor.select(QTextCursor::WordUnderCursor)`. -/
def QTextCursor.select (wuc : WordSelect) (c : QTextCursor) : QTextCursor :=
  { c with anchor := (wuc c.text c.position).1, position := (wuc c.text c.position).2 }

/-! ## The code editor -/

/-- The state of a `CodeEditWidget`, as far as completion reads or writes it.
`server` tells whether the member `server` is non-null, `modified` and
`requireCompletion` are the members of these names, `textNotChanged` is the
flag `highlighter->textNotChanged`, `textCursor` is the document text with the
editor's cursor, and `cl` is the popup `*cl`. -/
structure CodeEditWidget where
  server : Bool
  modified : Bool
  requireCompletion : Bool
  textNotChanged : Bool
  textCursor : QTextCursor
  cl : CompletionList
  deriving DecidableEq, Repr

/-- `CompletionList::readCompletions`, on the editor the popup belongs to: it
writes the editor's `requireCompletion` (`codeEdit->requireCompletion`) and the
popup's `completions`. -/
def CompletionList.readCompletions (w : CodeEditWidget) (response : CompletionResponse) :
    CodeEditWidget :=
  { w with requireCompletion := response.incomplete,
           cl := { w.cl with completions := response.items } }

namespace CodeEditWidget

/-- The state the constructor leaves: `server(nullptr), modified(false),
requireCompletion(true)`, a hidden popup without candidates. -/
def init (text : QString) : CodeEditWidget :=
  { server := false, modified := false, requireCompletion := true,
    textNotChanged := false,
    textCursor := { text := text, anchor := 0, position := 0 },
    cl := { completions := [], rows := [], currentRow := none, visible := false } }

/-- The word the slots work on: `cursor.select(WordUnderCursor)` on a copy of
`textCursor()`, then `cursor.selectedText()`. -/
def curWord (wuc : WordSelect) (w : CodeEditWidget) : QString :=
  (w.textCursor.select wuc).selectedText

/-- `CodeEditWidget::askForCompletion` up to its `co_await`s: `none` when the
coroutine returns at once, otherwise the word kept in the coroutine frame;
with it the requests sent to the server. -/
def askForCompletionBegin (wuc : WordSelect) (w : CodeEditWidget) :
    Option QString × List Effect :=
  if !w.server then (none, [])
  else
    let cursor := w.textCursor.select wuc
    let word := cursor.selectedText
    if word.isEmpty then (none, [])
    else (some word,
      [Effect.didOpen w.textCursor.text,
       Effect.completion cursor.blockNumber cursor.columnNumber])

/-- `CodeEditWidget::askForCompletion` from the answer of `server->completion`
on: the loop that returns when an item's `insertText` equals the word of the
coroutine frame, then `cl->readCompletions(completion)`. -/
def askForCompletionResume (w : CodeEditWidget) (word : QString)
    (completion : CompletionResponse) : CodeEditWidget :=
  if completion.items.any (fun item => item.insertText == word) then w
  else CompletionList.readCompletions w completion

/-- `CodeEditWidget::askForCompletion` run as a whole, with `completion` the
answer of the server: the state it leaves and the requests it sent. -/
def askForCompletion (wuc : WordSelect) (w : CodeEditWidget)
    (completion : CompletionResponse) : CodeEditWidget × List Effect :=
  match askForCompletionBegin wuc w with
  | (none, calls) => (w, calls)
  | (some word, calls) => (askForCompletionResume w word completion, calls)

/-- `CodeEditWidget::updateCompletionList`. -/
def updateCompletionList (wuc : WordSelect) (w : CodeEditWidget) : CodeEditWidget :=
  let cursor := w.textCursor.select wuc
  let word := cursor.selectedText
  if word.isEmpty then { w with requireCompletion := true }
  else
    let cl := w.cl.update word
    if cl.count != 0 then { w with cl := cl.display } else { w with cl := cl.hide }

/-- `CodeEditWidget::onTextChanged` up to the first suspension: the new state,
what was sent, and the word in the frame of `askForCompletion` when the
coroutine is suspended there (`none` when the slot has run to its end). -/
def onTextChangedBegin (wuc : WordSelect) (w : CodeEditWidget) :
    CodeEditWidget × List Effect × Option QString :=
  if w.textNotChanged then ({ w with textNotChanged := false }, [], none)
  else
    let w1 := if !w.modified then { w with modified := true } else w
    let sent := if !w.modified then [Effect.modify] else []
    if w1.requireCompletion then
      match askForCompletionBegin wuc w1 with
      | (some word, calls) => (w1, sent ++ calls, some word)
      | (none, calls) => (updateCompletionList wuc w1, sent ++ calls, none)
    else (updateCompletionList wuc w1, sent, none)

/-- The signal `textChanged` raised by an edit that a slot makes itself.  The
constructor connects it to `onTextChanged`, so when the edit has changed the
document (`changed`) that slot runs at once, inside the running slot, up to its
first suspension. -/
def emitTextChanged (wuc : WordSelect) (changed : Bool) (w : CodeEditWidget) :
    CodeEditWidget × List Effect × Option QString :=
  if changed then onTextChangedBegin wuc w else (w, [], none)

/-- `CodeEditWidget::insertCompletion`: the editor it leaves, what was sent
meanwhile, and the frames of the coroutines left suspended.
`removeSelectedText` changes the document when the selected word is not empty
and `insertText` when the inserted text is not empty; each change raises
`textChanged` and so runs `onTextChanged` before the next statement.  The
editor's own cursor stands in the replaced word and is carried by the document
to the start of the removed word and then to the end of the inserted text.
(The edits may also raise `cursorPositionChanged`, which only hides the popup;
the popup is hidden at the end in any case.) -/
def insertCompletion (wuc : WordSelect) (w : CodeEditWidget) (completion : QString) :
    CodeEditWidget × List Effect × List QString :=
  let cursor := w.textCursor.select wuc
  let removed := cursor.removeSelectedText
  let r1 := emitTextChanged wuc (!cursor.selectedText.isEmpty) { w with textCursor := removed }
  let inserted := removed.insertText completion
  let r2 := emitTextChanged wuc (!completion.isEmpty) { r1.1 with textCursor := inserted }
  ({ r2.1 with cl := r2.1.cl.hide, requireCompletion := true },
    r1.2.1 ++ r2.2.1, r1.2.2.toList ++ r2.2.2.toList)

/-- `CodeEditWidget::onTextChanged` from the server's answer on: the rest of
`askForCompletion`, then `updateCompletionList()`.  The state `w` is the one
the editor is in when the answer arrives. -/
def onTextChangedResume (wuc : WordSelect) (w : CodeEditWidget) (word : QString)
    (completion : CompletionResponse) : CodeEditWidget :=
  updateCompletionList wuc (askForCompletionResume w word completion)

/-- `CodeEditWidget::onTextChanged` run as a whole: nothing else happens
between the request and the answer `completion` of the server. -/
def onTextChanged (wuc : WordSelect) (w : CodeEditWidget) (completion : CompletionResponse) :
    CodeEditWidget × List Effect :=
  match onTextChangedBegin wuc w with
  | (w1, sent, none) => (w1, sent)
  | (w1, sent, some word) => (onTextChangedResume wuc w1 word completion, sent)

end CodeEditWidget

namespace CompletionList

/-- `QListWidget::keyPressEvent` for `Key_Up` and `Key_Down`, the toolkit's
handler: the current row moves by one and stops at the ends of the list. -/
def listKeyPressEvent (cl : CompletionList) (e : QKeyEvent) : CompletionList :=
  match cl.currentRow with
  | none => cl
  | some i =>
    if e.key = Key_Up then { cl with currentRow := some (i - 1) }
    else if e.key = Key_Down then { cl with currentRow := some (min (i + 1) (cl.rows.length - 1)) }
    else cl

/-- `CompletionList::keyPressEvent`, on the editor the popup belongs to: the
editor it leaves, what was sent, and the frames of the coroutines left
suspended.  The signal `completionSelected` is connected to
`CodeEditWidget::insertCompletion` in the editor's constructor, so `emit` runs
that slot, with all it sends, before `hide()`. -/
def keyPressEvent (wuc : WordSelect) (w : CodeEditWidget) (e : QKeyEvent) :
    CodeEditWidget × List Effect × List QString :=
  if e.key = Key_Up ∨ e.key = Key_Down then
    ({ w with cl := w.cl.listKeyPressEvent e }, [], [])
  else if e.key = Key_Tab then
    match w.cl.currentItem with
    | some item =>
      let r := w.insertCompletion wuc item.insertText
      ({ r.1 with cl := r.1.cl.hide },
        Effect.completionSelected item.insertText :: r.2.1, r.2.2)
    | none => (w, [], [])
  else if e.key = Key_Escape then
    ({ w with cl := w.cl.hide }, [], [])
  else (w, [Effect.codeEditKeyPress e], [])

/-- `CompletionList::onItemClicked` for the item in row `row`, with the slot
`insertCompletion` that the emitted signal runs. -/
def onItemClicked (wuc : WordSelect) (w : CodeEditWidget) (row : Nat) :
    CodeEditWidget × List Effect × List QString :=
  match w.cl.rows[row]? with
  | some item =>
    let r := w.insertCompletion wuc item.insertText
    (r.1, Effect.completionSelected item.insertText :: r.2.1, r.2.2)
  | none => (w, [], [])

end CompletionList

/-- Builds a candidate whose label and inserted text are both `s`. -/
def mkItem (s : String) : CompletionItem :=
  { label := s.toList, insertText := s.toList, kind := ItemKind.Text }

/-- The prefix filter of the specification: the candidates of the batch whose
`insertText` starts with the word, in batch order. -/
def prefixFilter (batch : List CompletionItem) (w : QString) : List CompletionItem :=
  batch.filter (fun c => w.isPrefixOf c.insertText)

/-- Whether a character belongs to a word: a letter, a digit or `_`. -/
def isWordChar (c : Char) : Bool := c.isAlphanum || c == '_'

/-- A word segmentation to run the slots on: the longest run of word
characters around the position. -/
def wordAround : WordSelect := fun text pos =>
  (pos - ((text.take pos).reverse.takeWhile isWordChar).length,
   pos + ((text.drop pos).takeWhile isWordChar).length)

/-! ## The editor under a sequence of events -/

/-- An editor at rest between two events: the widget, and the coroutine frames
of the `onTextChanged` calls that wait for the server (each holds the word
`askForCompletion` read before its request). -/
structure Editor where
  widget : CodeEditWidget
  suspended : List QString
  deriving DecidableEq, Repr

/-- What can happen to an editor. -/
inductive Event where
  /-- The coroutine `runServer` has obtained a server. -/
  | serverStarted
  /-- The highlighter re-formats the document and raises `textNotChanged`. -/
  | highlighted
  /-- The document becomes `text` with the cursor at `position`, and the
  signal `textChanged` reaches `onTextChanged`. -/
  | textChanged (text : QString) (position : Nat)
  /-- The server answers the request of the suspended coroutine number `i`. -/
  | completionResponse (i : Nat) (answer : CompletionResponse)
  /-- The cursor moves to `position`; `cursorPositionChanged` is connected to
  the popup's `hide`. -/
  | cursorPositionChanged (position : Nat)
  /-- A key is pressed while the popup has the focus. -/
  | keyPress (e : QKeyEvent)
  /-- A row of the popup is clicked. -/
  | itemClicked (row : Nat)
  deriving DecidableEq, Repr

namespace Editor

/-- The editor right after the constructor of `CodeEditWidget`. -/
def init (text : QString) : Editor :=
  { widget := CodeEditWidget.init text, suspended := [] }

/-- One event. -/
def step (wuc : WordSelect) (ed : Editor) : Event → Editor
  | Event.serverStarted => { ed with widget := { ed.widget with server := true } }
  | Event.highlighted => { ed with widget := { ed.widget with textNotChanged := true } }
  | Event.textChanged text position =>
    let w0 : CodeEditWidget :=
      { ed.widget with textCursor := { text := text, anchor := position, position := position } }
    match CodeEditWidget.onTextChangedBegin wuc w0 with
    | (w1, _, none) => { ed with widget := w1 }
    | (w1, _, some word) => { widget := w1, suspended := ed.suspended ++ [word] }
  | Event.completionResponse i answer =>
    match ed.suspended[i]? with
    | none => ed
    | some word =>
      { widget := CodeEditWidget.onTextChangedResume wuc ed.widget word answer,
        suspended := ed.suspended.eraseIdx i }
  | Event.cursorPositionChanged position =>
    { ed with widget :=
        { ed.widget with
            textCursor := { ed.widget.textCursor with anchor := position, position := position },
            cl := ed.widget.cl.hide } }
  | Event.keyPress e =>
    { widget := (CompletionList.keyPressEvent wuc ed.widget e).1,
      suspended := ed.suspended ++ (CompletionList.keyPressEvent wuc ed.widget e).2.2 }
  | Event.itemClicked row =>
    { widget := (CompletionList.onItemClicked wuc ed.widget row).1,
      suspended := ed.suspended ++ (CompletionList.onItemClicked wuc ed.widget row).2.2 }

/-- A sequence of events, one after the other. -/
def run (wuc : WordSelect) (ed : Editor) (events : List Event) : Editor :=
  events.foldl (step wuc) ed

/-- The states an editor can be in: those a sequence of events leads to from
the state after construction. -/
def Reachable (wuc : WordSelect) (ed : Editor) : Prop :=
  ∃ text events, ed = run wuc (init text) events

end Editor

/-- The popup's invariant: when visible it has rows, and a current row among
them. -/
def CompletionList.WellShown (cl : CompletionList) : Prop :=
  cl.visible = true → cl.rows ≠ [] ∧ ∃ i, cl.currentRow = some i ∧ i < cl.rows.length

/-! ## Concrete editors for the scenarios -/

/-- A key event without modifiers and text. -/
def plainKey (key : Nat) : QKeyEvent := { key := key, modifiers := 0, text := [] }

/-- The key `a` as the toolkit delivers it. -/
def keyA : QKeyEvent := { key := 0x41, modifiers := 0, text := ['a'] }

/-- The batch of scenario A: `print`, `private`, `public`. -/
def scenarioBatch : List CompletionItem :=
  [mkItem "print", mkItem "private", mkItem "public"]

/-- The complete answer of scenario A. -/
def answerA : CompletionResponse :=
  { incomplete := false, items := scenarioBatch }

/-- Scenario A as a sequence of events on an empty document: the server
starts, the user has typed `pri`, the server answers with `print`, `private`,
`public`. -/
def scenarioA : List Event :=
  [Event.serverStarted, Event.textChanged "pri".toList 3,
   Event.completionResponse 0 answerA]

/-- The editor at the end of scenario A: the popup shows `print`, `private`
with `print` highlighted. -/
def shownA : CodeEditWidget :=
  (Editor.run wordAround (Editor.init []) scenarioA).widget

/-- An editor with a server whose document is `text` with the cursor at its
end, holding the cached batch `batch` and showing `rows`. -/
def editorAt (text : String) (requireCompletion : Bool) (batch rows : List CompletionItem)
    (visible : Bool) : CodeEditWidget :=
  { server := true, modified := true, requireCompletion := requireCompletion,
    textNotChanged := false,
    textCursor := { text := text.toList, anchor := text.length, position := text.length },
    cl := { completions := batch, rows := rows,
            currentRow := if visible then some 0 else none, visible := visible } }

/-- Scenario B: the batch of scenario A is cached and trusted, the word under
the cursor has grown to `priv`. -/
def cachedPriv : CodeEditWidget :=
  editorAt "x = priv" false scenarioBatch [mkItem "print", mkItem "private"] false

/-- An editor that still holds the batch of an earlier, incomplete answer
(`requireCompletion` is true, the popup is hidden) while the word under the
cursor is `print`. -/
def stalePrint : CodeEditWidget :=
  editorAt "x = print" true [mkItem "print", mkItem "println"] [] false

/-- The server's answer for the word `print`: its top match is `print`. -/
def answerPrint : CompletionResponse :=
  { incomplete := false, items := [mkItem "print"] }

/-- An answer that the server marks incomplete. -/
def answerIncomplete : CompletionResponse :=
  { incomplete := true, items := [mkItem "print", mkItem "private"] }

/-- An editor that waits for the answer to a request for the word `pri`. -/
def waitingPri : CodeEditWidget :=
  editorAt "x = pri" true [] [] false

/-- An editor whose trusted batch has no candidate for the word `prix` under
the cursor. -/
def exhaustedPrix : CodeEditWidget :=
  editorAt "x = prix" false scenarioBatch [mkItem "print", mkItem "private"] false

/-- An editor whose document has just become empty while the popup still
shows two candidates. -/
def emptiedVisible : CodeEditWidget :=
  editorAt "" false scenarioBatch [mkItem "print", mkItem "private"] true

/-! ## A request overtaken by typing -/

/-- The user types `pri` and then `v` before the server answers: two requests
are under way, the first with the word `pri` in its frame, and the word under
the cursor is `priv`. -/
def overtaken : Editor :=
  Editor.run wordAround (Editor.init [])
    [Event.serverStarted, Event.textChanged "pri".toList 3, Event.textChanged "priv".toList 4]

/-- An answer with an item equal to `pri`, the word of the request, and none
equal to `priv`. -/
def answerHasPri : CompletionResponse :=
  { incomplete := false, items := [mkItem "pri", mkItem "print"] }

/-- An answer with an item equal to `priv`, the word at the time of the answer,
and none equal to `pri`. -/
def answerHasPriv : CompletionResponse :=
  { incomplete := false, items := [mkItem "priv", mkItem "private"] }

/-- The editor when the answer to the request for `pri` arrives: the word
under the cursor has become `priv`. -/
def typedPriv : CodeEditWidget :=
  editorAt "x = priv" true [] [] false

/-! ## Starting the language server -/

/-- `CodeEditWidget::runServer`.  `found` tells whether
`LanguageServers::get` yields a server (not `nullptr`), `ok` is `response.ok`
of `server->initialize`.  The result is the editor and whether the warning
`initialized failed` was logged. -/
def CodeEditWidget.runServer (w : CodeEditWidget) (found ok : Bool) : CodeEditWidget × Bool :=
  let w1 := { w with server := found }
  if !found then (w1, false)
  else if !ok then (w1, true)
  else (w1, false)

/-- What an event makes the editor send. -/
def Editor.sent (wuc : WordSelect) (ed : Editor) : Event → List Effect
  | Event.textChanged text position =>
    (CodeEditWidget.onTextChangedBegin wuc
      { ed.widget with
          textCursor := { text := text, anchor := position, position := position } }).2.1
  | Event.keyPress e => (CompletionList.keyPressEvent wuc ed.widget e).2.1
  | Event.itemClicked row => (CompletionList.onItemClicked wuc ed.widget row).2.1
  | _ => []

/-- Everything a sequence of events makes the editor send, in order. -/
def Editor.trace (wuc : WordSelect) : Editor → List Event → List Effect
  | _, [] => []
  | ed, ev :: events => ed.sent wuc ev ++ Editor.trace wuc (ed.step wuc ev) events

/-- The editor of an empty document whose server was found and answered
`initialize` with `ok = false`. -/
def failedInit : Editor :=
  { widget := ((CodeEditWidget.init []).runServer true false).1, suspended := [] }

/-- The user types `pri` and the server answers with the batch of scenario
A. -/
def typePri : List Event :=
  [Event.textChanged "pri".toList 3, Event.completionResponse 0 answerA]

/-- The editor of an empty document for whose language no server exists. -/
def noServer : Editor :=
  { widget := ((CodeEditWidget.init []).runServer false false).1, suspended := [] }

/-- An editor without a server that has never stored a batch: no server, no
candidates, a hidden popup. -/
def CodeEditWidget.Quiet (w : CodeEditWidget) : Prop :=
  w.server = false ∧ w.cl.completions = [] ∧ w.cl.visible = false

/-! ## Loading a file -/

/-- `QChar::Category`, the general categories of Unicode. -/
inductive Category where
  | Mark_NonSpacing
  | Mark_SpacingCombining
  | Mark_Enclosing
  | Number_DecimalDigit
  | Number_Letter
  | Number_Other
  | Separator_Space
  | Separator_Line
  | Separator_Paragraph
  | Other_Control
  | Other_Format
  | Other_Surrogate
  | Other_PrivateUse
  | Other_NotAssigned
  | Letter_Uppercase
  | Letter_Lowercase
  | Letter_Titlecase
  | Letter_Modifier
  | Letter_Other
  | Punctuation_Connector
  | Punctuation_Dash
  | Punctuation_Open
  | Punctuation_Close
  | Punctuation_InitialQuote
  | Punctuation_FinalQuote
  | Punctuation_Other
  | Symbol_Math
  | Symbol_Currency
  | Symbol_Modifier
  | Symbol_Other
  deriving DecidableEq, Repr

/-- The toolkit's character tables behind `QChar::isPrint`, `QChar::isSpace`,
`QChar::isPunct` and `QChar::category`.  They are toolkit data, so `readFile`
takes them as a parameter. -/
structure QCharTable where
  isPrint : Char → Bool
  isSpace : Char → Bool
  isPunct : Char → Bool
  category : Char → Category

/-- The macro `MAX_BUFFER_SIZE`. -/
def MAX_BUFFER_SIZE : Nat := 1024 * 1024

/-- A file as `readFile` meets it: whether the two `open` calls succeed, the
lines `QTextStream::readLine` returns until `atEnd`, `QFile::size` in bytes,
and the text `readAll` returns. -/
structure DiskFile where
  opens : Bool
  reopens : Bool
  lines : List QString
  size : Nat
  content : QString
  deriving DecidableEq, Repr

/-- What `readFile` writes in the editor: `isReadOnly()`, the visibility of the
line number area, and the text set by `setPlainText`. -/
structure TextPane where
  readOnly : Bool
  lnaVisible : Bool
  plainText : QString
  deriving DecidableEq, Repr

/-- The pane of an editor under construction, before `readFile`. -/
def TextPane.fresh : TextPane :=
  { readOnly := false, lnaVisible := true, plainText := [] }

/-- The text `tr("文件格式不支持")`, shown for an unsupported format. -/
def unsupportedText : QString := "文件格式不支持".toList

/-- The text `tr("文件过大，无法在编辑器内打开")`, shown for a file that is too
large. -/
def tooLargeText : QString := "文件过大，无法在编辑器内打开".toList

/-- The test of the inner loop of `readFile` on one character. -/
def binaryChar (t : QCharTable) (c : Char) : Bool :=
  if !t.isPrint c && !t.isSpace c && !t.isPunct c then
    if t.category c != Category.Mark_NonSpacing &&
        t.category c != Category.Symbol_Other &&
        t.category c != Category.Other_Surrogate &&
        t.category c != Category.Other_Format then true
    else false
  else false

/-- The `while (!in.atEnd())` loop of `readFile` on the lines still to read,
with `lineCnt` the counter before the next line: whether it reaches the
`return` for an unsupported format. -/
def scanLines (t : QCharTable) : List QString → Nat → Bool
  | [], _ => false
  | line :: rest, lineCnt =>
    if lineCnt + 1 > 50 then false
    else if line.any (binaryChar t) then true
    else scanLines t rest (lineCnt + 1)

/-- `CodeEditWidget::readFile`. -/
def readFile (t : QCharTable) (f : DiskFile) (v : TextPane) : TextPane :=
  if !f.opens then v
  else if scanLines t f.lines 0 then
    { readOnly := true, lnaVisible := false, plainText := unsupportedText }
  else if !f.reopens then v
  else if f.size > MAX_BUFFER_SIZE then
    { readOnly := true, lnaVisible := false, plainText := tooLargeText }
  else { v with plainText := f.content }

/-- A character table for the examples: codes 32 to 126 print, the blank and
the codes 9 to 13 are space, the codes below 32 and the code 127 are control
characters, nothing is punctuation. -/
def asciiTable : QCharTable :=
  { isPrint := fun c => decide (32 ≤ c.toNat ∧ c.toNat < 127),
    isSpace := fun c => decide (c.toNat = 32 ∨ (9 ≤ c.toNat ∧ c.toNat ≤ 13)),
    isPunct := fun _ => false,
    category := fun c =>
      if c.toNat < 32 ∨ c.toNat = 127 then Category.Other_Control else Category.Letter_Other }

/-- A readable file of 51 lines and exactly 1 MiB whose only control
character `NUL` stands on line 51. -/
def nulOnLine51 : DiskFile :=
  { opens := true, reopens := true,
    lines := List.replicate 50 "int x;".toList ++ [['\x00']],
    size := 1048576,
    content := "int x;".toList }

/-- A readable file whose first line holds the control character `NUL`. -/
def nulOnLine1 : DiskFile :=
  { opens := true, reopens := true,
    lines := [['a', '\x00'], "int x;".toList],
    size := 9,
    content := ['a', '\x00', '\n'] ++ "int x;".toList }

/-- A readable text file of one byte more than 1 MiB. -/
def oneByteOver : DiskFile :=
  { opens := true, reopens := true,
    lines := ["int x;".toList],
    size := 1048577,
    content := "int x;".toList }

/-- The classification of the specification: some character within the first
50 lines is not printable, not a space, not punctuation and not of category
Mn, So, Cs or Cf. -/
def binaryInFirst50 (t : QCharTable) (lines : List QString) : Prop :=
  ∃ line ∈ lines.take 50, ∃ c ∈ line,
    t.isPrint c = false ∧ t.isSpace c = false ∧ t.isPunct c = false
    ∧ t.category c ≠ Category.Mark_NonSpacing ∧ t.category c ≠ Category.Symbol_Other
    ∧ t.category c ≠ Category.Other_Surrogate ∧ t.category c ≠ Category.Other_Format

/-- The read-only pane with the `unsupported format` text. -/
def unsupportedPane : TextPane :=
  { readOnly := true, lnaVisible := false, plainText := unsupportedText }

/-- The read-only pane with the `too large` text. -/
def tooLargePane : TextPane :=
  { readOnly := true, lnaVisible := false, plainText := tooLargeText }

/-! ## File operations of the file tree -/

/-- `FileOperation`: the four enumerators the widgets name, and `other` for
any further enumerator, which the `switch` statements send to `default`. -/
inductive FileOperation where
  | OPEN
  | OPEN_LOCALLY
  | RENAME
  | DELETE
  | other (code : Nat)
  deriving DecidableEq, Repr

/-- What the file system and the user answer during one
`handleRawFileOperation`: `file.exists()`, `file.isDir()`, `file.path()`, the
result of `QDesktopServices::openUrl`, the `ok` and the text of
`QInputDialog::getText`, the result of `QFile::rename`, whether the
confirmation dialog is answered with `Yes`, and the result of the removal. -/
structure Answers where
  fileExists : Bool
  isDir : Bool
  path : QString
  openUrl : Bool
  getTextOk : Bool
  newName : QString
  rename : Bool
  confirmYes : Bool
  remove : Bool
  deriving DecidableEq, Repr

/-- What `handleRawFileOperation` does to the outside, in program order. -/
inductive TreeEffect where
  /-- A `QMessageBox::warning`. -/
  | warning
  /-- The call `QDesktopServices::openUrl` on a folder. -/
  | openUrl (folderPath : QString)
  /-- The call `QFile::rename`. -/
  | rename (oldPath : QString) (newPath : QString)
  /-- The call `QDir::removeRecursively` or `QFile::remove`. -/
  | remove (path : QString)
  /-- The signal `FileTreeWidget::operateFile`. -/
  | operateFile (filename : QString) (operation : FileOperation)
  deriving DecidableEq, Repr

/-- `FileTreeWidget::handleRawFileOperation`: the `switch` yields what was done
and the value of `ok` at its end, then `operateFile` is emitted when `ok`
holds. -/
def handleRawFileOperation (env : Answers) (filename : QString)
    (operation : FileOperation) : List TreeEffect :=
  if !env.fileExists then [TreeEffect.warning]
  else
    let (done, ok) : List TreeEffect × Bool :=
      match operation with
      | FileOperation.OPEN => ([], true)
      | FileOperation.OPEN_LOCALLY =>
        let folderPath := if env.isDir then filename else env.path
        if !env.openUrl then ([TreeEffect.openUrl folderPath, TreeEffect.warning], false)
        else ([TreeEffect.openUrl folderPath], true)
      | FileOperation.RENAME =>
        if env.getTextOk && !env.newName.isEmpty then
          let newPath := env.path ++ ['/'] ++ env.newName
          if !env.rename then ([TreeEffect.rename filename newPath, TreeEffect.warning], false)
          else ([TreeEffect.rename filename newPath], true)
        else ([], env.getTextOk)
      | FileOperation.DELETE =>
        if !env.confirmYes then ([], true)
        else if !env.remove then ([TreeEffect.remove filename, TreeEffect.warning], false)
        else ([TreeEffect.remove filename], true)
      | FileOperation.other _ => ([TreeEffect.warning], true)
    if ok then done ++ [TreeEffect.operateFile filename operation] else done

/-- Whether `handleRawFileOperation` has carried the operation out: the file
exists and the call that does the work was made and succeeded (`OPEN` leaves
the work to the code editor). -/
def carriedOut (env : Answers) : FileOperation → Bool
  | FileOperation.OPEN => env.fileExists
  | FileOperation.OPEN_LOCALLY => env.fileExists && env.openUrl
  | FileOperation.RENAME =>
    env.fileExists && env.getTextOk && !env.newName.isEmpty && env.rename
  | FileOperation.DELETE => env.fileExists && env.confirmYes && env.remove
  | FileOperation.other _ => false

/-- A tab of the `CodeTabWidget`: the welcome page or a code editor on a
file. -/
inductive Tab where
  | welcome
  | edit (filePath : QString)
  deriving DecidableEq, Repr

/-- `CodeTabWidget::removeCodeEdit`: the tab leaves, and the welcome page
comes back when no tab is left. -/
def removeCodeEdit (tabs : List Tab) (index : Nat) : List Tab :=
  if index ≥ tabs.length then tabs
  else
    let rest := tabs.eraseIdx index
    if rest.length = 0 then [Tab.welcome] else rest

/-- `CodeTabWidget::checkRemoveCodeEdit`: the first editor on the file is
removed. -/
def checkRemoveCodeEdit (tabs : List Tab) (filename : QString) : List Tab :=
  match tabs.indexOf? (Tab.edit filename) with
  | some i => removeCodeEdit tabs i
  | none => tabs

/-- `CodeTabWidget::addCodeEdit`: an editor on the file is added unless one is
open already. -/
def addCodeEdit (tabs : List Tab) (filePath : QString) : List Tab :=
  if tabs.contains (Tab.edit filePath) then tabs else tabs ++ [Tab.edit filePath]

/-- `CodeTabWidget::handleFileOperation`. -/
def handleFileOperation (tabs : List Tab) (filename : QString) :
    FileOperation → List Tab
  | FileOperation.OPEN => addCodeEdit tabs filename
  | FileOperation.RENAME => checkRemoveCodeEdit tabs filename
  | FileOperation.DELETE => checkRemoveCodeEdit tabs filename
  | _ => tabs

/-- The file `main.cpp` exists; the user answers the confirmation of a
deletion with `No`. -/
def deleteDeclined : Answers :=
  { fileExists := true, isDir := false, path := "/src".toList, openUrl := true,
    getTextOk := false, newName := [], rename := false, confirmYes := false, remove := false }

/-- The file `main.cpp` exists; the user confirms the rename dialog with an
empty name. -/
def renameEmptyName : Answers :=
  { fileExists := true, isDir := false, path := "/src".toList, openUrl := true,
    getTextOk := true, newName := [], rename := false, confirmYes := false, remove := false }

/-- The path of the file the examples work on. -/
def mainCpp : QString := "/src/main.cpp".toList

/-! ## Theorems -/

section Lemmas

/-- The loop of `update` only appends rows: the other fields keep their
values and the rows grow by the matching candidates, in order. -/
theorem update_loop (w : QString) (l : List CompletionItem) (acc : CompletionList) :
    l.foldl (fun acc item =>
        if w.isPrefixOf item.insertText then acc.addCompletionItem item else acc) acc
      = { acc with rows := acc.rows ++ prefixFilter l w } := by
  induction l generalizing acc with
  | nil => simp [prefixFilter]
  | cons c l ih =>
    rw [List.foldl_cons, ih]
    by_cases h : w.isPrefixOf c.insertText = true
    · simp [prefixFilter, List.filter_cons, h, CompletionList.addCompletionItem]
    · simp [prefixFilter, List.filter_cons, h]

theorem update_eq (cl : CompletionList) (w : QString) :
    cl.update w = { cl with rows := prefixFilter cl.completions w, currentRow := none } := by
  unfold CompletionList.update
  rw [update_loop]
  simp [CompletionList.clear]

theorem updateCompletionList_of_word (wuc : WordSelect) (w : CodeEditWidget)
    (hword : w.curWord wuc ≠ []) :
    w.updateCompletionList wuc =
      if prefixFilter w.cl.completions (w.curWord wuc) ≠ [] then
        { w with cl := { w.cl with rows := prefixFilter w.cl.completions (w.curWord wuc),
                                   currentRow := some 0, visible := true } }
      else
        { w with cl := { w.cl with rows := [], currentRow := none, visible := false } } := by
  have hne : (w.textCursor.select wuc).selectedText.isEmpty = false := by
    cases h : (w.textCursor.select wuc).selectedText with
    | nil => exact absurd h hword
    | cons a l => rfl
  unfold CodeEditWidget.updateCompletionList
  simp only [hne, update_eq, CodeEditWidget.curWord]
  by_cases hf : prefixFilter w.cl.completions (w.textCursor.select wuc).selectedText = []
  · simp [hf, CompletionList.count, CompletionList.hide]
  · have hlen : (prefixFilter w.cl.completions (w.textCursor.select wuc).selectedText).length ≠ 0 := by
      simpa using hf
    have hemp : (prefixFilter w.cl.completions (w.textCursor.select wuc).selectedText).isEmpty
        = false := by
      cases h : prefixFilter w.cl.completions (w.textCursor.select wuc).selectedText with
      | nil => exact absurd h hf
      | cons a l => rfl
    simp [hf, hlen, hemp, CompletionList.count, CompletionList.display,
      CompletionList.setCurrentRow0]

theorem updateCompletionList_of_empty (wuc : WordSelect) (w : CodeEditWidget)
    (hword : w.curWord wuc = []) :
    w.updateCompletionList wuc = { w with requireCompletion := true } := by
  unfold CodeEditWidget.updateCompletionList
  have : (w.textCursor.select wuc).selectedText = [] := hword
  simp [this]

end Lemmas

/-- C1: `CompletionList::update(w)` fills the list with exactly the candidates
of the stored batch whose `insertText` starts with `w`: the rows are the
prefix filter of the batch, they are a sublist of the batch (same relative
order), and every candidate occurs among the rows as often as in the batch
when it matches and not at all when it does not.  For the batch `print`,
`private`, `public` and the word `pri` the rows are `print`, `private`. -/
theorem update_rows_exactly_matching (cl : CompletionList) (w : QString) :
    (cl.update w).rows = prefixFilter cl.completions w
    ∧ List.Sublist (cl.update w).rows cl.completions
    ∧ (∀ c, c ∈ (cl.update w).rows ↔ c ∈ cl.completions ∧ w.isPrefixOf c.insertText = true)
    ∧ (∀ c, (cl.update w).rows.count c =
        if w.isPrefixOf c.insertText then cl.completions.count c else 0)
    ∧ ((CompletionList.mk scenarioBatch [] none false).update "pri".toList).rows
        = [mkItem "print", mkItem "private"] := by
  have hrows : (cl.update w).rows = prefixFilter cl.completions w := by
    rw [update_eq]
  refine ⟨hrows, ?_, ?_, ?_, ?_⟩
  · rw [hrows]; exact List.filter_sublist _
  · intro c; rw [hrows]; simp [prefixFilter, List.mem_filter]
  · intro c
    rw [hrows, prefixFilter]
    by_cases h : w.isPrefixOf c.insertText = true
    · rw [if_pos h, List.count_filter]
      simpa using h
    · rw [if_neg h]
      apply List.count_eq_zero_of_not_mem
      intro hmem
      exact h (by simpa using (List.mem_filter.mp hmem).2)
  · decide

section Lemmas

theorem isEmpty_eq_false_of_ne_nil (q : QString) (h : q ≠ []) : q.isEmpty = false := by
  cases q with
  | nil => exact absurd rfl h
  | cons a l => rfl

/-- With the cache trusted the slot is the bookkeeping of `modified` followed
by `updateCompletionList`, and only `modify` can be sent. -/
theorem onTextChanged_trusted (wuc : WordSelect) (w : CodeEditWidget)
    (answer : CompletionResponse)
    (hreq : w.requireCompletion = false) (hflag : w.textNotChanged = false) :
    w.onTextChanged wuc answer =
      (CodeEditWidget.updateCompletionList wuc { w with modified := true },
        if w.modified then [] else [Effect.modify]) := by
  obtain ⟨server, modified, req, tnc, tc, cl⟩ := w
  simp only at hreq hflag
  subst hreq hflag
  cases modified <;>
    simp [CodeEditWidget.onTextChanged, CodeEditWidget.onTextChangedBegin]

/-- With a query required, a server at hand and a word under the cursor, the
slot sends the two requests and, on the answer, finishes in
`onTextChangedResume` with that word in the coroutine frame. -/
theorem onTextChanged_query (wuc : WordSelect) (w : CodeEditWidget)
    (answer : CompletionResponse)
    (hreq : w.requireCompletion = true) (hflag : w.textNotChanged = false)
    (hserver : w.server = true) (hword : w.curWord wuc ≠ []) :
    w.onTextChanged wuc answer =
      (CodeEditWidget.onTextChangedResume wuc { w with modified := true }
          (w.curWord wuc) answer,
        (if w.modified then [] else [Effect.modify]) ++
          [Effect.didOpen w.textCursor.text,
           Effect.completion (w.textCursor.select wuc).blockNumber
             (w.textCursor.select wuc).columnNumber]) := by
  obtain ⟨server, modified, req, tnc, tc, cl⟩ := w
  simp only at hreq hflag hserver
  subst hreq hflag hserver
  have h5 : (tc.select wuc).selectedText.isEmpty = false :=
    isEmpty_eq_false_of_ne_nil _ hword
  have h6 : (tc.select wuc).selectedText ≠ [] := hword
  cases modified <;>
    simp [CodeEditWidget.onTextChanged, CodeEditWidget.onTextChangedBegin,
      CodeEditWidget.askForCompletionBegin, h6, CodeEditWidget.curWord]

/-- Without a word under the cursor the slot sends no request and ends in
`updateCompletionList`, whatever the flag says. -/
theorem onTextChanged_no_word (wuc : WordSelect) (w : CodeEditWidget)
    (answer : CompletionResponse)
    (hflag : w.textNotChanged = false) (hword : w.curWord wuc = []) :
    w.onTextChanged wuc answer =
      ({ w with modified := true, requireCompletion := true },
        if w.modified then [] else [Effect.modify]) := by
  obtain ⟨server, modified, req, tnc, tc, cl⟩ := w
  simp only at hflag
  subst hflag
  have h6 : (tc.select wuc).selectedText = [] := hword
  cases modified <;> cases req <;> cases server <;>
    simp [CodeEditWidget.onTextChanged, CodeEditWidget.onTextChangedBegin,
      CodeEditWidget.askForCompletionBegin, CodeEditWidget.updateCompletionList, h6]

/-- The slot cut at the `co_await` agrees with the source read top to bottom:
the guard on `textNotChanged`, the bookkeeping of `modified`, then
`askForCompletion` when a query is required, then `updateCompletionList`. -/
theorem onTextChanged_sequential (wuc : WordSelect) (w : CodeEditWidget)
    (answer : CompletionResponse) :
    w.onTextChanged wuc answer =
      if w.textNotChanged then ({ w with textNotChanged := false }, [])
      else
        let w1 := if !w.modified then { w with modified := true } else w
        let sent := if !w.modified then [Effect.modify] else []
        if w1.requireCompletion then
          (CodeEditWidget.updateCompletionList wuc (w1.askForCompletion wuc answer).1,
            sent ++ (w1.askForCompletion wuc answer).2)
        else (CodeEditWidget.updateCompletionList wuc w1, sent) := by
  obtain ⟨server, modified, req, tnc, tc, cl⟩ := w
  cases tnc
  · cases req
    · cases modified <;>
        simp [CodeEditWidget.onTextChanged, CodeEditWidget.onTextChangedBegin]
    · have key : ∀ m : Bool,
          (match (match CodeEditWidget.askForCompletionBegin wuc ⟨server, true, true, false, tc, cl⟩ with
              | (some word, calls) =>
                ((⟨server, true, true, false, tc, cl⟩ : CodeEditWidget),
                  (if m then [] else [Effect.modify]) ++ calls, some word)
              | (none, calls) =>
                (CodeEditWidget.updateCompletionList wuc ⟨server, true, true, false, tc, cl⟩,
                  (if m then [] else [Effect.modify]) ++ calls, none)) with
            | (w1, sent, none) => (w1, sent)
            | (w1, sent, some word) =>
              (CodeEditWidget.onTextChangedResume wuc w1 word answer, sent)) =
          (CodeEditWidget.updateCompletionList wuc
              (CodeEditWidget.askForCompletion wuc ⟨server, true, true, false, tc, cl⟩ answer).1,
            (if m then [] else [Effect.modify]) ++
              (CodeEditWidget.askForCompletion wuc ⟨server, true, true, false, tc, cl⟩ answer).2) := by
        intro m
        unfold CodeEditWidget.askForCompletion CodeEditWidget.onTextChangedResume
        cases CodeEditWidget.askForCompletionBegin wuc ⟨server, true, true, false, tc, cl⟩ with
        | mk frame calls => cases frame <;> rfl
      cases modified
      · simpa [CodeEditWidget.onTextChanged, CodeEditWidget.onTextChangedBegin] using key false
      · simpa [CodeEditWidget.onTextChanged, CodeEditWidget.onTextChangedBegin] using key true
  · simp [CodeEditWidget.onTextChanged, CodeEditWidget.onTextChangedBegin]

end Lemmas

/-- C2: in an editor with `requireCompletion = false` and a non-empty word `w`
under the cursor, a text change (`onTextChanged` for a change of the text, so
with the highlighter's flag `textNotChanged` clear) sends nothing to the
language server, keeps the stored batch and the flag, and leaves the popup
visible with the prefix filter of the stored batch by `w` when that filter is
non-empty, and hidden otherwise. -/
theorem onTextChanged_uses_cache (wuc : WordSelect) (w : CodeEditWidget)
    (answer : CompletionResponse)
    (hreq : w.requireCompletion = false) (hflag : w.textNotChanged = false)
    (hword : w.curWord wuc ≠ []) :
    (∀ e ∈ (w.onTextChanged wuc answer).2, e.isServerCall = false)
    ∧ (w.onTextChanged wuc answer).1.cl.completions = w.cl.completions
    ∧ (w.onTextChanged wuc answer).1.requireCompletion = false
    ∧ (prefixFilter w.cl.completions (w.curWord wuc) ≠ [] →
        (w.onTextChanged wuc answer).1.cl.visible = true
        ∧ (w.onTextChanged wuc answer).1.cl.rows
            = prefixFilter w.cl.completions (w.curWord wuc))
    ∧ (prefixFilter w.cl.completions (w.curWord wuc) = [] →
        (w.onTextChanged wuc answer).1.cl.visible = false) := by
  have hword1 : CodeEditWidget.curWord wuc { w with modified := true } ≠ [] := hword
  rw [onTextChanged_trusted wuc w answer hreq hflag,
    updateCompletionList_of_word wuc _ hword1]
  have hcw : CodeEditWidget.curWord wuc { w with modified := true } = w.curWord wuc := rfl
  simp only [hcw]
  refine ⟨?_, ?_, ?_, ?_, ?_⟩
  · intro e he
    cases hm : w.modified <;> simp [hm] at he
    subst he; rfl
  · split <;> rfl
  · split <;> exact hreq
  · intro hne; rw [if_pos hne]; exact ⟨rfl, rfl⟩
  · intro he
    have : ¬ (prefixFilter w.cl.completions (w.curWord wuc) ≠ []) := fun h => h he
    rw [if_neg this]

/-- Witness for C2 (scenario B): with the batch `print`, `private`, `public`
cached and the word `priv`, the popup shows `private`. -/
theorem onTextChanged_uses_cache_witness :
    cachedPriv.requireCompletion = false ∧ cachedPriv.curWord wordAround = "priv".toList
    ∧ (cachedPriv.onTextChanged wordAround answerPrint).1.cl.visible = true
    ∧ (cachedPriv.onTextChanged wordAround answerPrint).1.cl.rows = [mkItem "private"] :=
  ⟨by decide, by decide,
    (onTextChanged_uses_cache wordAround cachedPriv answerPrint (by decide) (by decide)
      (by decide)).2.2.2.1 (by decide)⟩

/-- When the answer holds an item equal to the word (its top match, say), the
slot keeps the stored batch and the flag, and then filters the batch that was
already cached: the popup ends visible exactly when that batch has a candidate
starting with the word. -/
theorem onTextChanged_exact_match (wuc : WordSelect) (w : CodeEditWidget)
    (answer : CompletionResponse)
    (hreq : w.requireCompletion = true) (hflag : w.textNotChanged = false)
    (hserver : w.server = true) (hword : w.curWord wuc ≠ [])
    (hmatch : ∃ item ∈ answer.items, item.insertText = w.curWord wuc) :
    (w.onTextChanged wuc answer).1.cl.completions = w.cl.completions
    ∧ (w.onTextChanged wuc answer).1.requireCompletion = true
    ∧ ((w.onTextChanged wuc answer).1.cl.visible = true ↔
        prefixFilter w.cl.completions (w.curWord wuc) ≠ []) := by
  have hany : answer.items.any (fun item => item.insertText == w.curWord wuc) = true := by
    obtain ⟨item, hmem, heq⟩ := hmatch
    exact List.any_eq_true.mpr ⟨item, hmem, by simpa using heq⟩
  have hword1 : CodeEditWidget.curWord wuc { w with modified := true } ≠ [] := hword
  rw [onTextChanged_query wuc w answer hreq hflag hserver hword]
  unfold CodeEditWidget.onTextChangedResume CodeEditWidget.askForCompletionResume
  rw [if_pos hany, updateCompletionList_of_word wuc _ hword1]
  have hcw : CodeEditWidget.curWord wuc { w with modified := true } = w.curWord wuc := rfl
  simp only [hcw]
  refine ⟨?_, ?_, ?_⟩
  · split <;> rfl
  · split <;> exact hreq
  · by_cases hf : prefixFilter w.cl.completions (w.curWord wuc) = []
    · simp [hf]
    · simp [hf]

/-- C3, the code at the failing input: the popup is hidden, a query is
required, the word under the cursor is `print`, the cached batch is `print`,
`println`, and the top match of the answer is `print`.  After the whole
handler the stored batch is unchanged, but the popup is visible and shows the
two cached candidates. -/
theorem onTextChanged_exact_match_shows_cached :
    stalePrint.cl.visible = false ∧ stalePrint.requireCompletion = true
    ∧ stalePrint.curWord wordAround = "print".toList
    ∧ (answerPrint.items.head?.map (fun item => item.insertText)) = some "print".toList
    ∧ (stalePrint.onTextChanged wordAround answerPrint).1.cl.completions
        = stalePrint.cl.completions
    ∧ (stalePrint.onTextChanged wordAround answerPrint).1.cl.visible = true
    ∧ (stalePrint.onTextChanged wordAround answerPrint).1.cl.rows
        = [mkItem "print", mkItem "println"] := by
  decide

/-- C4, counterexample: an answer that is not suppressed for the word `pri`
and that the server marks incomplete is stored, and `requireCompletion` is
true afterwards. -/
theorem readCompletions_incomplete_counterexample :
    (answerIncomplete.items.any (fun item => item.insertText == "pri".toList)) = false
    ∧ waitingPri.askForCompletionResume "pri".toList answerIncomplete
        = CompletionList.readCompletions waitingPri answerIncomplete
    ∧ (CompletionList.readCompletions waitingPri answerIncomplete).cl.completions = answerIncomplete.items
    ∧ (CompletionList.readCompletions waitingPri answerIncomplete).requireCompletion = true := by
  decide

/-- C4, amended: storing an answer (`CompletionList::readCompletions`)
replaces the stored candidates by the items of the answer and leaves
`requireCompletion` equal to the answer's `incomplete` mark: false after a
complete answer, true after an incomplete one.  An answer with no item equal
to the word is stored this way by `askForCompletion`. -/
theorem readCompletions_stores_and_copies_mark (w : CodeEditWidget)
    (response : CompletionResponse) :
    (CompletionList.readCompletions w response).cl.completions = response.items
    ∧ (CompletionList.readCompletions w response).requireCompletion = response.incomplete
    ∧ (∀ word, (∀ item ∈ response.items, item.insertText ≠ word) →
        w.askForCompletionResume word response = CompletionList.readCompletions w response) := by
  refine ⟨rfl, rfl, ?_⟩
  intro word hno
  have hany : response.items.any (fun item => item.insertText == word) = false := by
    rw [List.any_eq_false]
    intro item hmem
    simpa using hno item hmem
  unfold CodeEditWidget.askForCompletionResume
  simp [hany]

/-- C5, counterexample: the trusted batch `print`, `private`, `public` has no
candidate for the word `prix`, and the text-change handler leaves
`requireCompletion` false. -/
theorem onTextChanged_exhausted_counterexample :
    exhaustedPrix.requireCompletion = false
    ∧ exhaustedPrix.curWord wordAround = "prix".toList
    ∧ prefixFilter exhaustedPrix.cl.completions (exhaustedPrix.curWord wordAround) = []
    ∧ (exhaustedPrix.onTextChanged wordAround answerPrint).1.requireCompletion = false := by
  decide

/-- C5, amended: in an editor with `requireCompletion = false` and a non-empty
word under the cursor for which no stored candidate's `insertText` starts with
the word, the text-change handler sends nothing to the language server, hides
the popup and leaves `requireCompletion = false`. -/
theorem onTextChanged_exhausted_keeps_flag (wuc : WordSelect) (w : CodeEditWidget)
    (answer : CompletionResponse)
    (hreq : w.requireCompletion = false) (hflag : w.textNotChanged = false)
    (hword : w.curWord wuc ≠ [])
    (hnone : ∀ c ∈ w.cl.completions, (w.curWord wuc).isPrefixOf c.insertText = false) :
    (w.onTextChanged wuc answer).1.requireCompletion = false
    ∧ (w.onTextChanged wuc answer).1.cl.visible = false
    ∧ (∀ e ∈ (w.onTextChanged wuc answer).2, e.isServerCall = false) := by
  have hf : prefixFilter w.cl.completions (w.curWord wuc) = [] := by
    unfold prefixFilter
    rw [List.filter_eq_nil_iff]
    intro c hc
    rw [hnone c hc]
    decide
  have hword1 : CodeEditWidget.curWord wuc { w with modified := true } ≠ [] := hword
  have hcw : CodeEditWidget.curWord wuc { w with modified := true } = w.curWord wuc := rfl
  rw [onTextChanged_trusted wuc w answer hreq hflag,
    updateCompletionList_of_word wuc _ hword1]
  simp only [hcw, hf]
  refine ⟨?_, ?_, ?_⟩
  · simpa using hreq
  · simp
  · intro e he
    cases hm : w.modified <;> simp [hm] at he
    subst he; rfl

/-- Witness for C5, amended. -/
theorem onTextChanged_exhausted_keeps_flag_witness :
    (exhaustedPrix.onTextChanged wordAround answerPrint).1.requireCompletion = false
    ∧ (exhaustedPrix.onTextChanged wordAround answerPrint).1.cl.visible = false
    ∧ (∀ e ∈ (exhaustedPrix.onTextChanged wordAround answerPrint).2,
        e.isServerCall = false) :=
  onTextChanged_exhausted_keeps_flag wordAround exhaustedPrix answerPrint (by decide)
    (by decide) (by decide) (by decide)

/-- C6, the code at the failing input: the word under the cursor is empty and
the popup is visible.  The text-change handler sends nothing and sets
`requireCompletion`, and the popup is still visible with its old rows. -/
theorem onTextChanged_empty_word_keeps_popup :
    emptiedVisible.curWord wordAround = [] ∧ emptiedVisible.cl.visible = true
    ∧ (emptiedVisible.onTextChanged wordAround answerPrint).2 = []
    ∧ (emptiedVisible.onTextChanged wordAround answerPrint).1.requireCompletion = true
    ∧ (emptiedVisible.onTextChanged wordAround answerPrint).1.cl.visible = true
    ∧ (emptiedVisible.onTextChanged wordAround answerPrint).1.cl.rows
        = [mkItem "print", mkItem "private"] := by
  decide

section Lemmas

/-- The fields `updateCompletionList` does not write. -/
theorem updateCompletionList_frame (wuc : WordSelect) (w : CodeEditWidget) :
    (w.updateCompletionList wuc).textCursor = w.textCursor
    ∧ (w.updateCompletionList wuc).cl.completions = w.cl.completions
    ∧ (w.updateCompletionList wuc).server = w.server := by
  by_cases hword : w.curWord wuc = []
  · rw [updateCompletionList_of_empty wuc w hword]; exact ⟨rfl, rfl, rfl⟩
  · rw [updateCompletionList_of_word wuc w hword]
    split
    · exact ⟨rfl, rfl, rfl⟩
    · exact ⟨rfl, rfl, rfl⟩

/-- Where `onTextChanged` stands at its first suspension or at its end: it has
only cleared the highlighter's flag, or it is suspended after the bookkeeping
of `modified`, or it has run `updateCompletionList` after that bookkeeping. -/
theorem onTextChangedBegin_shape (wuc : WordSelect) (w : CodeEditWidget) :
    (w.onTextChangedBegin wuc).1 = { w with textNotChanged := false }
    ∨ (w.onTextChangedBegin wuc).1 = { w with modified := true }
    ∨ (w.onTextChangedBegin wuc).1
        = CodeEditWidget.updateCompletionList wuc { w with modified := true } := by
  obtain ⟨server, modified, req, tnc, tc, cl⟩ := w
  unfold CodeEditWidget.onTextChangedBegin
  cases tnc
  · cases req
    · cases modified <;> simp
    · cases hb : CodeEditWidget.askForCompletionBegin wuc ⟨server, true, true, false, tc, cl⟩ with
      | mk frame calls =>
        cases frame with
        | none => cases modified <;> simp [hb]
        | some word => cases modified <;> simp [hb]
  · simp

/-- The fields `onTextChanged` does not write before the server answers. -/
theorem onTextChangedBegin_frame (wuc : WordSelect) (w : CodeEditWidget) :
    (w.onTextChangedBegin wuc).1.textCursor = w.textCursor
    ∧ (w.onTextChangedBegin wuc).1.cl.completions = w.cl.completions
    ∧ (w.onTextChangedBegin wuc).1.server = w.server := by
  rcases onTextChangedBegin_shape wuc w with h | h | h
  · rw [h]; exact ⟨rfl, rfl, rfl⟩
  · rw [h]; exact ⟨rfl, rfl, rfl⟩
  · rw [h]; exact updateCompletionList_frame wuc _

theorem askForCompletionBegin_calls (wuc : WordSelect) (w : CodeEditWidget) :
    ∀ x ∈ (w.askForCompletionBegin wuc).2, x.isCompletionSelected = false := by
  unfold CodeEditWidget.askForCompletionBegin
  split
  · intro x hx; simp at hx
  · simp only
    split
    · intro x hx; simp at hx
    · intro x hx
      simp only [List.mem_cons, List.mem_singleton, List.not_mem_nil, or_false] at hx
      rcases hx with hx | hx <;> subst hx <;> rfl

/-- What `onTextChanged` sends before the server answers is `modify` or a call
to the server, never `completionSelected`. -/
theorem onTextChangedBegin_sent (wuc : WordSelect) (w : CodeEditWidget) :
    ∀ x ∈ (w.onTextChangedBegin wuc).2.1, x.isCompletionSelected = false := by
  obtain ⟨server, modified, req, tnc, tc, cl⟩ := w
  have hmod : ∀ x ∈ (if (!modified) = true then [Effect.modify] else []),
      x.isCompletionSelected = false := by
    intro x hx
    cases modified <;> simp at hx
    subst hx; rfl
  unfold CodeEditWidget.onTextChangedBegin
  cases tnc
  · cases req
    · simp only [Bool.false_eq_true, if_false]
      have hr : (if (!modified) = true then
          ({ server := server, modified := true, requireCompletion := false,
             textNotChanged := false, textCursor := tc, cl := cl } : CodeEditWidget)
          else ⟨server, modified, false, false, tc, cl⟩).requireCompletion = false := by
        cases modified <;> rfl
      simp only [hr, Bool.false_eq_true, if_false]
      exact hmod
    · have hr : (if (!modified) = true then
          ({ server := server, modified := true, requireCompletion := true,
             textNotChanged := false, textCursor := tc, cl := cl } : CodeEditWidget)
          else ⟨server, modified, true, false, tc, cl⟩)
          = ⟨server, true, true, false, tc, cl⟩ := by
        cases modified <;> rfl
      simp only [Bool.false_eq_true, if_false, hr, if_true]
      have hc := askForCompletionBegin_calls wuc ⟨server, true, true, false, tc, cl⟩
      cases hb : CodeEditWidget.askForCompletionBegin wuc ⟨server, true, true, false, tc, cl⟩ with
      | mk frame calls =>
        rw [hb] at hc
        cases frame with
        | none =>
          intro x hx
          simp only [List.mem_append] at hx
          rcases hx with hx | hx
          · exact hmod x hx
          · exact hc x hx
        | some word =>
          intro x hx
          simp only [List.mem_append] at hx
          rcases hx with hx | hx
          · exact hmod x hx
          · exact hc x hx
  · intro x hx; simp at hx

theorem emitTextChanged_frame (wuc : WordSelect) (changed : Bool) (w : CodeEditWidget) :
    (CodeEditWidget.emitTextChanged wuc changed w).1.textCursor = w.textCursor
    ∧ (CodeEditWidget.emitTextChanged wuc changed w).1.cl.completions = w.cl.completions
    ∧ (CodeEditWidget.emitTextChanged wuc changed w).1.server = w.server := by
  unfold CodeEditWidget.emitTextChanged
  cases changed
  · exact ⟨rfl, rfl, rfl⟩
  · exact onTextChangedBegin_frame wuc w

theorem emitTextChanged_sent (wuc : WordSelect) (changed : Bool) (w : CodeEditWidget) :
    ∀ x ∈ (CodeEditWidget.emitTextChanged wuc changed w).2.1,
      x.isCompletionSelected = false := by
  unfold CodeEditWidget.emitTextChanged
  cases changed
  · intro x hx; simp at hx
  · exact onTextChangedBegin_sent wuc w

/-- The fields of the editor after `insertCompletion`, in terms of the cursor
that made the two edits. -/
theorem insertCompletion_fields (wuc : WordSelect) (w : CodeEditWidget) (s : QString) :
    (w.insertCompletion wuc s).1.textCursor
        = ((w.textCursor.select wuc).removeSelectedText).insertText s
    ∧ (w.insertCompletion wuc s).1.cl.visible = false
    ∧ (w.insertCompletion wuc s).1.requireCompletion = true
    ∧ (w.insertCompletion wuc s).1.cl.completions = w.cl.completions
    ∧ (w.insertCompletion wuc s).1.server = w.server
    ∧ (∀ x ∈ (w.insertCompletion wuc s).2.1, x.isCompletionSelected = false) := by
  unfold CodeEditWidget.insertCompletion
  refine ⟨?_, rfl, rfl, ?_, ?_, ?_⟩
  · exact (emitTextChanged_frame wuc _ _).1
  · show (CodeEditWidget.emitTextChanged wuc _ _).1.cl.completions = _
    rw [(emitTextChanged_frame wuc _ _).2.1]
    exact (emitTextChanged_frame wuc _ _).2.1
  · show (CodeEditWidget.emitTextChanged wuc _ _).1.server = _
    rw [(emitTextChanged_frame wuc _ _).2.2]
    exact (emitTextChanged_frame wuc _ _).2.2
  · intro x hx
    simp only [List.mem_append] at hx
    rcases hx with hx | hx
    · exact emitTextChanged_sent wuc _ _ x hx
    · exact emitTextChanged_sent wuc _ _ x hx

theorem take_take_drop (text : QString) (lo hi : Nat) (h : lo ≤ hi) :
    text = text.take lo ++ (text.take hi).drop lo ++ text.drop hi := by
  have h1 : text.take lo = (text.take hi).take lo := by
    rw [List.take_take, Nat.min_eq_left h]
  rw [h1, List.take_append_drop, List.take_append_drop]

theorem splice_take (text : QString) (lo hi : Nat) (h : lo ≤ hi) :
    (text.take lo ++ text.drop hi).take lo = text.take lo
    ∧ (text.take lo ++ text.drop hi).drop lo = text.drop hi := by
  by_cases hl : lo ≤ text.length
  · have hlen : (text.take lo).length = lo := by
      rw [List.length_take]; omega
    constructor
    · rw [List.take_append_of_le_length (by omega), List.take_take, Nat.min_self]
    · rw [List.drop_append_of_le_length (by omega)]
      rw [List.drop_eq_nil_of_le (by omega), List.nil_append]
  · have ha : text.take lo = text := List.take_of_length_le (by omega)
    have hb : text.drop hi = [] := List.drop_eq_nil_of_le (by omega)
    rw [ha, hb, List.append_nil]
    exact ⟨ha, List.drop_eq_nil_of_le (by omega)⟩

theorem insertCompletion_text (wuc : WordSelect) (w : CodeEditWidget) (s : QString) :
    (w.insertCompletion wuc s).1.textCursor.text =
      w.textCursor.text.take (w.textCursor.select wuc).selectionStart ++ s ++
        w.textCursor.text.drop (w.textCursor.select wuc).selectionEnd := by
  have hle : (w.textCursor.select wuc).selectionStart ≤ (w.textCursor.select wuc).selectionEnd := by
    unfold QTextCursor.selectionStart QTextCursor.selectionEnd
    omega
  have hsp := splice_take (w.textCursor.select wuc).text _ _ hle
  have htext : (w.textCursor.select wuc).text = w.textCursor.text := rfl
  rw [htext] at hsp
  rw [(insertCompletion_fields wuc w s).1]
  simp only [QTextCursor.insertText,
    QTextCursor.removeSelectedText, QTextCursor.selectionStart, QTextCursor.selectionEnd,
    Nat.min_self, Nat.max_self, htext]
  simp only [QTextCursor.selectionStart, QTextCursor.selectionEnd] at hsp
  rw [List.take_append_drop, hsp.1, hsp.2]

end Lemmas

/-- C7: `CodeEditWidget::insertCompletion(s)` replaces exactly the word under
the cursor by `s`: with `before` the text up to the start of that word and
`after` the text from its end on, the document was `before ++ word ++ after`
and becomes `before ++ s ++ after`.  The popup ends hidden,
`requireCompletion` ends true, and the stored batch is untouched. -/
theorem insertCompletion_replaces_word (wuc : WordSelect) (w : CodeEditWidget) (s : QString) :
    w.textCursor.text =
        w.textCursor.text.take (w.textCursor.select wuc).selectionStart ++ w.curWord wuc ++
          w.textCursor.text.drop (w.textCursor.select wuc).selectionEnd
    ∧ (w.insertCompletion wuc s).1.textCursor.text =
        w.textCursor.text.take (w.textCursor.select wuc).selectionStart ++ s ++
          w.textCursor.text.drop (w.textCursor.select wuc).selectionEnd
    ∧ (w.insertCompletion wuc s).1.cl.visible = false
    ∧ (w.insertCompletion wuc s).1.requireCompletion = true
    ∧ (w.insertCompletion wuc s).1.cl.completions = w.cl.completions := by
  have hle : (w.textCursor.select wuc).selectionStart ≤ (w.textCursor.select wuc).selectionEnd := by
    unfold QTextCursor.selectionStart QTextCursor.selectionEnd
    omega
  have hf := insertCompletion_fields wuc w s
  exact ⟨take_take_drop w.textCursor.text _ _ hle, insertCompletion_text wuc w s,
    hf.2.1, hf.2.2.1, hf.2.2.2.1⟩

section Lemmas

theorem wellShown_of_hidden (cl : CompletionList) (h : cl.visible = false) : cl.WellShown := by
  intro hv; rw [h] at hv; exact absurd hv (by decide)

theorem updateCompletionList_wellShown (wuc : WordSelect) (w : CodeEditWidget)
    (h : w.cl.WellShown) : (w.updateCompletionList wuc).cl.WellShown := by
  by_cases hword : w.curWord wuc = []
  · rw [updateCompletionList_of_empty wuc w hword]; exact h
  · rw [updateCompletionList_of_word wuc w hword]
    by_cases hf : prefixFilter w.cl.completions (w.curWord wuc) = []
    · simp only [hf, ne_eq, not_true_eq_false, if_false]
      exact wellShown_of_hidden _ rfl
    · rw [if_pos hf]
      intro _
      exact ⟨hf, 0, rfl, List.length_pos.mpr hf⟩

theorem onTextChangedBegin_wellShown (wuc : WordSelect) (w : CodeEditWidget)
    (h : w.cl.WellShown) : (w.onTextChangedBegin wuc).1.cl.WellShown := by
  obtain ⟨server, modified, req, tnc, tc, cl⟩ := w
  have hm : ∀ m, (CodeEditWidget.updateCompletionList wuc ⟨server, m, req, false, tc, cl⟩).cl.WellShown :=
    fun m => updateCompletionList_wellShown wuc _ h
  unfold CodeEditWidget.onTextChangedBegin
  cases tnc
  · cases req
    · cases modified <;> simpa using hm true
    · cases hb : CodeEditWidget.askForCompletionBegin wuc ⟨server, true, true, false, tc, cl⟩ with
      | mk frame calls =>
        cases frame with
        | none => cases modified <;> simpa [hb] using hm true
        | some word => cases modified <;> simpa [hb] using h
  · simpa using h

theorem onTextChangedResume_wellShown (wuc : WordSelect) (w : CodeEditWidget) (word : QString)
    (answer : CompletionResponse) (h : w.cl.WellShown) :
    (w.onTextChangedResume wuc word answer).cl.WellShown := by
  unfold CodeEditWidget.onTextChangedResume
  apply updateCompletionList_wellShown
  unfold CodeEditWidget.askForCompletionResume
  split
  · exact h
  · exact h

theorem listKeyPressEvent_wellShown (cl : CompletionList) (e : QKeyEvent)
    (h : cl.WellShown) : (cl.listKeyPressEvent e).WellShown := by
  unfold CompletionList.listKeyPressEvent
  cases hc : cl.currentRow with
  | none => exact h
  | some i =>
    simp only
    split
    · intro hv
      obtain ⟨hr, j, hj, hlt⟩ := h hv
      rw [hc] at hj
      cases hj
      exact ⟨hr, i - 1, rfl, by show i - 1 < cl.rows.length; omega⟩
    · split
      · intro hv
        obtain ⟨hr, j, hj, hlt⟩ := h hv
        exact ⟨hr, _, rfl, by show min (i + 1) (cl.rows.length - 1) < cl.rows.length; omega⟩
      · exact h

theorem keyPressEvent_wellShown (wuc : WordSelect) (w : CodeEditWidget) (e : QKeyEvent)
    (h : w.cl.WellShown) : (CompletionList.keyPressEvent wuc w e).1.cl.WellShown := by
  unfold CompletionList.keyPressEvent
  split
  · exact listKeyPressEvent_wellShown _ _ h
  · split
    · split
      · exact wellShown_of_hidden _ rfl
      · exact h
    · split
      · exact wellShown_of_hidden _ rfl
      · exact h

theorem onItemClicked_wellShown (wuc : WordSelect) (w : CodeEditWidget) (row : Nat)
    (h : w.cl.WellShown) : (CompletionList.onItemClicked wuc w row).1.cl.WellShown := by
  unfold CompletionList.onItemClicked
  split
  · exact wellShown_of_hidden _ rfl
  · exact h

theorem step_wellShown (wuc : WordSelect) (ed : Editor) (ev : Event)
    (h : ed.widget.cl.WellShown) : (ed.step wuc ev).widget.cl.WellShown := by
  cases ev with
  | serverStarted => exact h
  | highlighted => exact h
  | textChanged text position =>
    have hb := onTextChangedBegin_wellShown wuc
      { ed.widget with textCursor := { text := text, anchor := position, position := position } } h
    simp only [Editor.step]
    split
    · rename_i heq; rw [heq] at hb; exact hb
    · rename_i heq; rw [heq] at hb; exact hb
  | completionResponse i answer =>
    simp only [Editor.step]
    split
    · exact h
    · exact onTextChangedResume_wellShown wuc _ _ _ h
  | cursorPositionChanged position => exact wellShown_of_hidden _ rfl
  | keyPress e => exact keyPressEvent_wellShown wuc _ e h
  | itemClicked row => exact onItemClicked_wellShown wuc _ row h

theorem run_wellShown (wuc : WordSelect) (events : List Event) (ed : Editor)
    (h : ed.widget.cl.WellShown) : (ed.run wuc events).widget.cl.WellShown := by
  induction events generalizing ed with
  | nil => exact h
  | cons ev events ih => exact ih _ (step_wellShown wuc ed ev h)

theorem reachable_wellShown (wuc : WordSelect) (ed : Editor) (h : ed.Reachable wuc) :
    ed.widget.cl.WellShown := by
  obtain ⟨text, events, rfl⟩ := h
  exact run_wellShown wuc events _ (wellShown_of_hidden _ rfl)

end Lemmas

/-- C8: in every state reachable from the initial editor (popup hidden, empty
batch, `requireCompletion = true`) by text changes, completion answers, key
presses on the popup, accepted candidates and cursor moves, a visible popup
has a non-empty list.  And the filter pass of `updateCompletionList` (the only
caller of `display`) leaves the popup with the filtered rows, visible when
there is a row and hidden when there is none. -/
theorem visible_popup_has_rows (wuc : WordSelect) (ed : Editor) (h : ed.Reachable wuc) :
    (ed.widget.cl.visible = true → ed.widget.cl.rows ≠ [])
    ∧ (∀ w : CodeEditWidget, w.curWord wuc ≠ [] →
        (w.updateCompletionList wuc).cl.rows = prefixFilter w.cl.completions (w.curWord wuc)
        ∧ ((w.updateCompletionList wuc).cl.visible = true ↔
            (w.updateCompletionList wuc).cl.rows ≠ [])) := by
  refine ⟨fun hv => (reachable_wellShown wuc ed h hv).1, ?_⟩
  intro w hword
  rw [updateCompletionList_of_word wuc w hword]
  by_cases hf : prefixFilter w.cl.completions (w.curWord wuc) = []
  · simp [hf]
  · simp [hf]

/-- Witness for C8: scenario A leads to a visible popup with two rows. -/
theorem visible_popup_has_rows_witness :
    (Editor.run wordAround (Editor.init []) scenarioA).widget.cl.visible = true
    ∧ (Editor.run wordAround (Editor.init []) scenarioA).widget.cl.rows ≠ [] :=
  ⟨by decide,
    (visible_popup_has_rows wordAround (Editor.run wordAround (Editor.init []) scenarioA)
      ⟨[], scenarioA, rfl⟩).1 (by decide)⟩

/-- In a reachable state a visible popup has a highlighted row. -/
theorem visible_popup_has_currentItem (wuc : WordSelect) (ed : Editor)
    (h : ed.Reachable wuc) (hv : ed.widget.cl.visible = true) :
    ∃ item, ed.widget.cl.currentItem = some item := by
  obtain ⟨_, i, hi, hlt⟩ := reachable_wellShown wuc ed h hv
  refine ⟨ed.widget.cl.rows[i], ?_⟩
  unfold CompletionList.currentItem
  rw [hi]
  exact List.getElem?_eq_getElem hlt

/-- C9: when the popup has a highlighted row, as every visible popup has
(a non-empty list with a current row), the accept key (`Key_Tab`) makes
`keyPressEvent` emit exactly one `completionSelected`, with the `insertText` of
the highlighted row, and leaves the popup hidden.  What is sent is that signal
followed by what the slot `insertCompletion` sends while it runs (no further
`completionSelected`).  Right after `display` on a non-empty list the popup is
visible and the highlighted row is row 0. -/
theorem keyPressEvent_tab_accepts (wuc : WordSelect) (w : CodeEditWidget) (e : QKeyEvent)
    (item : CompletionItem) (hkey : e.key = Key_Tab)
    (hcur : w.cl.currentItem = some item) :
    (CompletionList.keyPressEvent wuc w e).2.1
        = Effect.completionSelected item.insertText
            :: (w.insertCompletion wuc item.insertText).2.1
    ∧ (CompletionList.keyPressEvent wuc w e).2.1.filter Effect.isCompletionSelected
        = [Effect.completionSelected item.insertText]
    ∧ (CompletionList.keyPressEvent wuc w e).1.cl.visible = false
    ∧ (∀ cl : CompletionList, cl.rows ≠ [] →
        cl.display.visible = true ∧ cl.display.currentItem = cl.rows.head?) := by
  have hup : ¬ (e.key = Key_Up ∨ e.key = Key_Down) := by
    rw [hkey]; decide
  have hsent : (CompletionList.keyPressEvent wuc w e).2.1
      = Effect.completionSelected item.insertText
          :: (w.insertCompletion wuc item.insertText).2.1 := by
    unfold CompletionList.keyPressEvent
    rw [if_neg hup, if_pos hkey, hcur]
  refine ⟨hsent, ?_, ?_, ?_⟩
  · have hnone : (w.insertCompletion wuc item.insertText).2.1.filter
        Effect.isCompletionSelected = [] := by
      rw [List.filter_eq_nil_iff]
      intro x hx
      rw [(insertCompletion_fields wuc w item.insertText).2.2.2.2.2 x hx]
      decide
    rw [hsent, List.filter_cons_of_pos (by rfl), hnone]
  · unfold CompletionList.keyPressEvent
    rw [if_neg hup, if_pos hkey, hcur]
    rfl
  · intro cl hne
    cases hr : cl.rows with
    | nil => exact absurd hr hne
    | cons a l =>
      simp [CompletionList.display, CompletionList.setCurrentRow0, CompletionList.currentItem, hr]

/-- Witness for C9 (scenario C): the popup is visible and shows `print`,
`private`; the accept key emits `completionSelected` once, with `print`,
followed by the two requests of the text change that the insertion raises, and
the popup is hidden afterwards. -/
theorem keyPressEvent_tab_accepts_witness :
    shownA.cl.visible = true ∧ shownA.cl.rows = [mkItem "print", mkItem "private"]
    ∧ (CompletionList.keyPressEvent wordAround shownA (plainKey Key_Tab)).2.1
        = [Effect.completionSelected "print".toList, Effect.didOpen "print".toList,
           Effect.completion 0 5]
    ∧ (CompletionList.keyPressEvent wordAround shownA (plainKey Key_Tab)).2.1.filter
          Effect.isCompletionSelected
        = [Effect.completionSelected "print".toList]
    ∧ (CompletionList.keyPressEvent wordAround shownA (plainKey Key_Tab)).1.cl.visible = false :=
  have h := keyPressEvent_tab_accepts wordAround shownA (plainKey Key_Tab) (mkItem "print")
    (by decide) (by decide)
  ⟨by decide, by decide, by decide, h.2.1, h.2.2.1⟩

/-- C10: for a key other than Up, Down, Tab and Escape, `keyPressEvent` passes
the very same key event to the editor's `keyPressEvent` exactly once, emits no
`completionSelected` and changes nothing of the popup (nor of the editor).
For Escape it hides the popup, keeps its list and emits nothing.  Both hold in
every state, so also while the popup is visible. -/
theorem keyPressEvent_other_key_forwarded (wuc : WordSelect) (w : CodeEditWidget)
    (e : QKeyEvent) (hup : e.key ≠ Key_Up) (hdown : e.key ≠ Key_Down)
    (htab : e.key ≠ Key_Tab) (hesc : e.key ≠ Key_Escape) :
    (CompletionList.keyPressEvent wuc w e).2.1 = [Effect.codeEditKeyPress e]
    ∧ (∀ x ∈ (CompletionList.keyPressEvent wuc w e).2.1, x.isCompletionSelected = false)
    ∧ (CompletionList.keyPressEvent wuc w e).1 = w
    ∧ (CompletionList.keyPressEvent wuc w e).2.2 = []
    ∧ (∀ esc : QKeyEvent, esc.key = Key_Escape →
        (CompletionList.keyPressEvent wuc w esc).1.cl.visible = false
        ∧ (CompletionList.keyPressEvent wuc w esc).1.cl.rows = w.cl.rows
        ∧ (CompletionList.keyPressEvent wuc w esc).2.1 = []) := by
  have hud : ¬ (e.key = Key_Up ∨ e.key = Key_Down) := fun h => h.elim hup hdown
  have hk : CompletionList.keyPressEvent wuc w e = (w, [Effect.codeEditKeyPress e], []) := by
    unfold CompletionList.keyPressEvent
    rw [if_neg hud, if_neg htab, if_neg hesc]
  refine ⟨by rw [hk], ?_, by rw [hk], by rw [hk], ?_⟩
  · rw [hk]
    intro x hx
    rw [List.mem_singleton] at hx
    subst hx; rfl
  · intro esc hkey
    have h1 : ¬ (esc.key = Key_Up ∨ esc.key = Key_Down) := by
      rw [hkey]; decide
    have h2 : ¬ (esc.key = Key_Tab) := by
      rw [hkey]; decide
    unfold CompletionList.keyPressEvent
    rw [if_neg h1, if_neg h2, if_pos hkey]
    exact ⟨rfl, rfl, rfl⟩

/-- Witness for C10: the key `a` pressed on the visible popup of scenario A is
handed on to the editor, and the popup stays as it is. -/
theorem keyPressEvent_other_key_forwarded_witness :
    shownA.cl.visible = true
    ∧ (CompletionList.keyPressEvent wordAround shownA keyA).2.1
        = [Effect.codeEditKeyPress keyA]
    ∧ (CompletionList.keyPressEvent wordAround shownA keyA).1 = shownA :=
  have h := keyPressEvent_other_key_forwarded wordAround shownA keyA
    (by decide) (by decide) (by decide) (by decide)
  ⟨by decide, h.1, h.2.2.1⟩

/-- C11, counterexample: the request was issued for the word `pri` and the
word under the cursor is `priv` when the first answer arrives.  An answer
with an item equal to `pri` and none equal to `priv` is not stored (the batch
stays empty), and an answer with an item equal to `priv` is stored. -/
theorem askForCompletion_stale_word_counterexample :
    overtaken.suspended = ["pri".toList, "priv".toList]
    ∧ overtaken.widget.curWord wordAround = "priv".toList
    ∧ overtaken.widget.cl.completions = []
    ∧ (answerHasPri.items.any (fun item => item.insertText == "pri".toList)) = true
    ∧ (answerHasPri.items.any (fun item => item.insertText == "priv".toList)) = false
    ∧ (overtaken.step wordAround (Event.completionResponse 0 answerHasPri)).widget.cl.completions
        = []
    ∧ (answerHasPriv.items.any (fun item => item.insertText == "priv".toList)) = true
    ∧ (overtaken.step wordAround (Event.completionResponse 0 answerHasPriv)).widget.cl.completions
        = answerHasPriv.items := by
  decide

/-- C11, amended: the word that decides on suppression is the one read when
the request was issued.  A request issued in the state `s1` keeps the word
`w1` under the cursor of `s1` in the coroutine frame; when the answer is
consumed in a later state `s2`, whatever word is then under the cursor, an
answer with an item equal to `w1` is suppressed (`s2` is left as it is) and an
answer with no item equal to `w1` is stored. -/
theorem askForCompletion_compares_request_word (wuc : WordSelect) (s1 s2 : CodeEditWidget)
    (answer : CompletionResponse)
    (hreq : s1.requireCompletion = true) (hflag : s1.textNotChanged = false)
    (hserver : s1.server = true) (hword : s1.curWord wuc ≠ []) :
    (s1.onTextChangedBegin wuc).2.2 = some (s1.curWord wuc)
    ∧ ((∃ item ∈ answer.items, item.insertText = s1.curWord wuc) →
        s2.askForCompletionResume (s1.curWord wuc) answer = s2)
    ∧ ((∀ item ∈ answer.items, item.insertText ≠ s1.curWord wuc) →
        s2.askForCompletionResume (s1.curWord wuc) answer
          = CompletionList.readCompletions s2 answer) := by
  refine ⟨?_, ?_, ?_⟩
  · obtain ⟨server, modified, req, tnc, tc, cl⟩ := s1
    simp only at hreq hflag hserver
    subst hreq hflag hserver
    have h6 : (tc.select wuc).selectedText ≠ [] := hword
    cases modified <;>
      simp [CodeEditWidget.onTextChangedBegin, CodeEditWidget.askForCompletionBegin, h6,
        CodeEditWidget.curWord]
  · intro hmatch
    have hany : answer.items.any (fun item => item.insertText == s1.curWord wuc) = true := by
      obtain ⟨item, hmem, heq⟩ := hmatch
      exact List.any_eq_true.mpr ⟨item, hmem, by simpa using heq⟩
    unfold CodeEditWidget.askForCompletionResume
    rw [if_pos hany]
  · intro hno
    have hany : answer.items.any (fun item => item.insertText == s1.curWord wuc) = false := by
      rw [List.any_eq_false]
      intro item hmem
      simpa using hno item hmem
    unfold CodeEditWidget.askForCompletionResume
    simp [hany]

/-- Witness for C11, amended: the request was issued for `pri`; with `priv`
under the cursor the answer holding `pri` is suppressed and the answer holding
`priv` is stored. -/
theorem askForCompletion_compares_request_word_witness :
    waitingPri.curWord wordAround = "pri".toList
    ∧ typedPriv.curWord wordAround = "priv".toList
    ∧ typedPriv.askForCompletionResume (waitingPri.curWord wordAround) answerHasPri = typedPriv
    ∧ typedPriv.askForCompletionResume (waitingPri.curWord wordAround) answerHasPriv
        = CompletionList.readCompletions typedPriv answerHasPriv :=
  have h := askForCompletion_compares_request_word wordAround waitingPri typedPriv
  ⟨by decide, by decide,
    (h answerHasPri (by decide) (by decide) (by decide) (by decide)).2.1 (by decide),
    (h answerHasPriv (by decide) (by decide) (by decide) (by decide)).2.2 (by decide)⟩

/-- C12, counterexample: `initialize` answered `ok = false` (the warning is
logged), the user types `pri`: `didOpen` and `completion` are sent, and with
the server's answer the popup becomes visible. -/
theorem runServer_failed_counterexample :
    ((CodeEditWidget.init []).runServer true false).2 = true
    ∧ Editor.trace wordAround failedInit typePri
        = [Effect.modify, Effect.didOpen "pri".toList, Effect.completion 0 3]
    ∧ (Editor.run wordAround failedInit typePri).widget.cl.visible = true
    ∧ (Editor.run wordAround failedInit typePri).widget.cl.rows
        = [mkItem "print", mkItem "private"] := by
  decide

section Lemmas

theorem onTextChangedBegin_no_server (wuc : WordSelect) (w : CodeEditWidget)
    (hs : w.server = false) :
    w.onTextChangedBegin wuc =
      if w.textNotChanged then ({ w with textNotChanged := false }, [], none)
      else (CodeEditWidget.updateCompletionList wuc { w with modified := true },
        if w.modified then [] else [Effect.modify], none) := by
  obtain ⟨server, modified, req, tnc, tc, cl⟩ := w
  simp only at hs
  subst hs
  cases tnc <;> cases modified <;> cases req <;>
    simp [CodeEditWidget.onTextChangedBegin, CodeEditWidget.askForCompletionBegin]

theorem updateCompletionList_quiet (wuc : WordSelect) (w : CodeEditWidget) (h : w.Quiet) :
    (w.updateCompletionList wuc).Quiet := by
  obtain ⟨hs, hc, hv⟩ := h
  by_cases hword : w.curWord wuc = []
  · rw [updateCompletionList_of_empty wuc w hword]; exact ⟨hs, hc, hv⟩
  · have hf : prefixFilter w.cl.completions (w.curWord wuc) = [] := by rw [hc]; rfl
    rw [updateCompletionList_of_word wuc w hword]
    simp only [hf, ne_eq, not_true_eq_false, if_false]
    exact ⟨hs, hc, rfl⟩

theorem onTextChangedBegin_quiet (wuc : WordSelect) (w : CodeEditWidget) (h : w.Quiet) :
    (w.onTextChangedBegin wuc).1.Quiet
    ∧ (w.onTextChangedBegin wuc).2.2 = none
    ∧ (∀ e ∈ (w.onTextChangedBegin wuc).2.1, e.isServerCall = false) := by
  rw [onTextChangedBegin_no_server wuc w h.1]
  split
  · exact ⟨h, rfl, by intro e he; simp at he⟩
  · refine ⟨updateCompletionList_quiet wuc _ h, rfl, ?_⟩
    intro e he
    cases hm : w.modified <;> simp [hm] at he
    subst he; rfl

theorem emitTextChanged_quiet (wuc : WordSelect) (changed : Bool) (w : CodeEditWidget)
    (h : w.Quiet) :
    (CodeEditWidget.emitTextChanged wuc changed w).1.Quiet
    ∧ (CodeEditWidget.emitTextChanged wuc changed w).2.2 = none
    ∧ (∀ e ∈ (CodeEditWidget.emitTextChanged wuc changed w).2.1, e.isServerCall = false) := by
  unfold CodeEditWidget.emitTextChanged
  cases changed
  · exact ⟨h, rfl, by intro e he; simp at he⟩
  · exact onTextChangedBegin_quiet wuc w h

theorem insertCompletion_quiet (wuc : WordSelect) (w : CodeEditWidget) (s : QString)
    (h : w.Quiet) :
    (w.insertCompletion wuc s).1.Quiet
    ∧ (w.insertCompletion wuc s).2.2 = []
    ∧ (∀ x ∈ (w.insertCompletion wuc s).2.1, x.isServerCall = false) := by
  have h1 := emitTextChanged_quiet wuc (!(w.textCursor.select wuc).selectedText.isEmpty)
    { w with textCursor := (w.textCursor.select wuc).removeSelectedText } h
  have h2 := emitTextChanged_quiet wuc (!s.isEmpty)
    { (CodeEditWidget.emitTextChanged wuc (!(w.textCursor.select wuc).selectedText.isEmpty)
        { w with textCursor := (w.textCursor.select wuc).removeSelectedText }).1 with
      textCursor := ((w.textCursor.select wuc).removeSelectedText).insertText s } h1.1
  unfold CodeEditWidget.insertCompletion
  refine ⟨⟨h2.1.1, h2.1.2.1, rfl⟩, ?_, ?_⟩
  · show Option.toList _ ++ Option.toList _ = []
    rw [h1.2.1, h2.2.1]; rfl
  · intro x hx
    simp only [List.mem_append] at hx
    rcases hx with hx | hx
    · exact h1.2.2 x hx
    · exact h2.2.2 x hx

theorem keyPressEvent_quiet (wuc : WordSelect) (w : CodeEditWidget) (e : QKeyEvent)
    (h : w.Quiet) :
    (CompletionList.keyPressEvent wuc w e).1.Quiet
    ∧ (CompletionList.keyPressEvent wuc w e).2.2 = []
    ∧ (∀ x ∈ (CompletionList.keyPressEvent wuc w e).2.1, x.isServerCall = false) := by
  unfold CompletionList.keyPressEvent
  split
  · refine ⟨⟨h.1, ?_, ?_⟩, rfl, by intro x hx; simp at hx⟩
    · show (w.cl.listKeyPressEvent e).completions = []
      unfold CompletionList.listKeyPressEvent
      split
      · exact h.2.1
      · split
        · exact h.2.1
        · split
          · exact h.2.1
          · exact h.2.1
    · show (w.cl.listKeyPressEvent e).visible = false
      unfold CompletionList.listKeyPressEvent
      split
      · exact h.2.2
      · split
        · exact h.2.2
        · split
          · exact h.2.2
          · exact h.2.2
  · split
    · split
      · rename_i item _
        have hq := insertCompletion_quiet wuc w item.insertText h
        refine ⟨⟨hq.1.1, hq.1.2.1, rfl⟩, hq.2.1, ?_⟩
        intro x hx
        rw [List.mem_cons] at hx
        rcases hx with hx | hx
        · subst hx; rfl
        · exact hq.2.2 x hx
      · exact ⟨h, rfl, by intro x hx; simp at hx⟩
    · split
      · exact ⟨⟨h.1, h.2.1, rfl⟩, rfl, by intro x hx; simp at hx⟩
      · refine ⟨h, rfl, ?_⟩
        intro x hx
        rw [List.mem_singleton] at hx
        subst hx; rfl

theorem onItemClicked_quiet (wuc : WordSelect) (w : CodeEditWidget) (row : Nat)
    (h : w.Quiet) :
    (CompletionList.onItemClicked wuc w row).1.Quiet
    ∧ (CompletionList.onItemClicked wuc w row).2.2 = []
    ∧ (∀ x ∈ (CompletionList.onItemClicked wuc w row).2.1, x.isServerCall = false) := by
  unfold CompletionList.onItemClicked
  split
  · rename_i item _
    have hq := insertCompletion_quiet wuc w item.insertText h
    refine ⟨hq.1, hq.2.1, ?_⟩
    intro x hx
    rw [List.mem_cons] at hx
    rcases hx with hx | hx
    · subst hx; rfl
    · exact hq.2.2 x hx
  · exact ⟨h, rfl, by intro x hx; simp at hx⟩

/-- Without a server and with no coroutine waiting, an event other than the
arrival of a server sends no request and leaves the editor without a server,
without candidates and with a hidden popup. -/
theorem step_quiet (wuc : WordSelect) (ed : Editor) (ev : Event)
    (h : ed.widget.Quiet) (hsus : ed.suspended = []) (hev : ev ≠ Event.serverStarted) :
    (ed.step wuc ev).widget.Quiet ∧ (ed.step wuc ev).suspended = []
    ∧ (∀ x ∈ ed.sent wuc ev, x.isServerCall = false) := by
  cases ev with
  | serverStarted => exact absurd rfl hev
  | highlighted => exact ⟨h, hsus, by intro x hx; simp [Editor.sent] at hx⟩
  | textChanged text position =>
    have hq : CodeEditWidget.Quiet
        { ed.widget with
            textCursor := { text := text, anchor := position, position := position } } := h
    obtain ⟨h1, h2, h3⟩ := onTextChangedBegin_quiet wuc _ hq
    refine ⟨?_, ?_, h3⟩
    · simp only [Editor.step]
      split
      · rename_i heq; rw [heq] at h1; exact h1
      · rename_i heq; rw [heq] at h1; exact h1
    · simp only [Editor.step]
      split
      · exact hsus
      · rename_i heq; rw [heq] at h2; exact absurd h2 (by simp)
  | completionResponse i answer =>
    have hnone : ed.suspended[i]? = none := by rw [hsus]; rfl
    refine ⟨?_, ?_, by intro x hx; simp [Editor.sent] at hx⟩
    · simp only [Editor.step, hnone]; exact h
    · simp only [Editor.step, hnone]; exact hsus
  | cursorPositionChanged position =>
    exact ⟨⟨h.1, h.2.1, rfl⟩, hsus, by intro x hx; simp [Editor.sent] at hx⟩
  | keyPress e =>
    have hq := keyPressEvent_quiet wuc ed.widget e h
    refine ⟨hq.1, ?_, hq.2.2⟩
    show ed.suspended ++ (CompletionList.keyPressEvent wuc ed.widget e).2.2 = []
    rw [hsus, hq.2.1]; rfl
  | itemClicked row =>
    have hq := onItemClicked_quiet wuc ed.widget row h
    refine ⟨hq.1, ?_, hq.2.2⟩
    show ed.suspended ++ (CompletionList.onItemClicked wuc ed.widget row).2.2 = []
    rw [hsus, hq.2.1]; rfl

theorem run_quiet (wuc : WordSelect) (events : List Event) (ed : Editor)
    (h : ed.widget.Quiet) (hsus : ed.suspended = [])
    (hno : Event.serverStarted ∉ events) :
    (ed.run wuc events).widget.Quiet
    ∧ (∀ x ∈ Editor.trace wuc ed events, x.isServerCall = false) := by
  induction events generalizing ed with
  | nil => exact ⟨h, by intro x hx; simp [Editor.trace] at hx⟩
  | cons ev events ih =>
    have hev : ev ≠ Event.serverStarted := fun he => hno (by rw [he]; exact List.mem_cons_self _ _)
    have hrest : Event.serverStarted ∉ events := fun hm => hno (List.mem_cons_of_mem _ hm)
    obtain ⟨h1, h2, h3⟩ := step_quiet wuc ed ev h hsus hev
    obtain ⟨h4, h5⟩ := ih (ed.step wuc ev) h1 h2 hrest
    refine ⟨h4, ?_⟩
    intro x hx
    simp only [Editor.trace, List.mem_append] at hx
    rcases hx with hx | hx
    · exact h3 x hx
    · exact h5 x hx

end Lemmas

/-- C12, amended: when `initialize` answers `ok = false` the failure is only
logged; the editor keeps its server and is in the same state as after a
successful `initialize`.  A later text change with a non-empty word and
`requireCompletion = true` sends `didOpen` and `completion`, and the popup
becomes visible when the answer is stored and has a candidate for the word.
Only when no server exists for the language is the editor inert: whatever
events follow, no `didOpen` or `completion` is sent and the popup stays
hidden. -/
theorem runServer_failure_only_logged (wuc : WordSelect) (w : CodeEditWidget)
    (answer : CompletionResponse)
    (hreq : w.requireCompletion = true) (hflag : w.textNotChanged = false)
    (hword : w.curWord wuc ≠ []) :
    (w.runServer true false).2 = true
    ∧ (w.runServer true false).1 = (w.runServer true true).1
    ∧ (w.runServer true false).1.server = true
    ∧ ((w.runServer true false).1.onTextChanged wuc answer).2 =
        (if w.modified then [] else [Effect.modify]) ++
          [Effect.didOpen w.textCursor.text,
           Effect.completion (w.textCursor.select wuc).blockNumber
             (w.textCursor.select wuc).columnNumber]
    ∧ ((∀ item ∈ answer.items, item.insertText ≠ w.curWord wuc) →
        prefixFilter answer.items (w.curWord wuc) ≠ [] →
        ((w.runServer true false).1.onTextChanged wuc answer).1.cl.visible = true)
    ∧ (∀ (doc : QString) (ok : Bool) (events : List Event),
        Event.serverStarted ∉ events →
        (∀ x ∈ Editor.trace wuc
            { widget := ((CodeEditWidget.init doc).runServer false ok).1, suspended := [] } events,
          x.isServerCall = false)
        ∧ (Editor.run wuc
            { widget := ((CodeEditWidget.init doc).runServer false ok).1, suspended := [] }
            events).widget.cl.visible = false) := by
  have hst : (w.runServer true false).1 = { w with server := true } := rfl
  have hq := onTextChanged_query wuc { w with server := true } answer hreq hflag rfl hword
  refine ⟨rfl, rfl, rfl, ?_, ?_, ?_⟩
  · rw [hst, hq]
  · intro hno hf
    have hany : answer.items.any (fun item => item.insertText == w.curWord wuc) = false := by
      rw [List.any_eq_false]
      intro item hmem
      simpa using hno item hmem
    have hcw : CodeEditWidget.curWord wuc { w with server := true } = w.curWord wuc := rfl
    rw [hst, hq, hcw]
    unfold CodeEditWidget.onTextChangedResume CodeEditWidget.askForCompletionResume
    simp only [hany, Bool.false_eq_true, if_false]
    have hword2 : CodeEditWidget.curWord wuc
        (CompletionList.readCompletions { w with server := true, modified := true } answer)
        ≠ [] := hword
    rw [updateCompletionList_of_word wuc _ hword2]
    have hf2 : prefixFilter
        (CompletionList.readCompletions
          { w with server := true, modified := true } answer).cl.completions
        (CodeEditWidget.curWord wuc
          (CompletionList.readCompletions { w with server := true, modified := true } answer))
        ≠ [] := hf
    rw [if_pos hf2]
  · intro doc ok events hno
    have hquiet : CodeEditWidget.Quiet ((CodeEditWidget.init doc).runServer false ok).1 :=
      ⟨rfl, rfl, rfl⟩
    have h := run_quiet wuc events
      { widget := ((CodeEditWidget.init doc).runServer false ok).1, suspended := [] }
      hquiet rfl hno
    exact ⟨h.2, h.1.2.2⟩

/-- Witness for C12, amended: in a fresh editor of the document `pri` whose
server failed to initialise, a text change sends both requests and the answer
of scenario A makes the popup visible; without a server the events of
scenario A after the start send nothing to a server and the popup stays
hidden. -/
theorem runServer_failure_only_logged_witness :
    (((CodeEditWidget.init "pri".toList).runServer true false).1.onTextChanged
        wordAround answerA).2
      = [Effect.modify, Effect.didOpen "pri".toList, Effect.completion 0 3]
    ∧ (((CodeEditWidget.init "pri".toList).runServer true false).1.onTextChanged
        wordAround answerA).1.cl.visible = true
    ∧ (∀ x ∈ Editor.trace wordAround noServer typePri, x.isServerCall = false)
    ∧ (Editor.run wordAround noServer typePri).widget.cl.visible = false :=
  have h := runServer_failure_only_logged wordAround (CodeEditWidget.init "pri".toList) answerA
    (by decide) (by decide) (by decide)
  have hn := h.2.2.2.2.2 [] false typePri (by decide)
  ⟨h.2.2.2.1, h.2.2.2.2.1 (by decide) (by decide), hn.1, hn.2⟩

section Lemmas

theorem binaryChar_iff (t : QCharTable) (c : Char) :
    binaryChar t c = true ↔
      t.isPrint c = false ∧ t.isSpace c = false ∧ t.isPunct c = false
      ∧ t.category c ≠ Category.Mark_NonSpacing ∧ t.category c ≠ Category.Symbol_Other
      ∧ t.category c ≠ Category.Other_Surrogate ∧ t.category c ≠ Category.Other_Format := by
  unfold binaryChar
  cases t.isPrint c <;> cases t.isSpace c <;> cases t.isPunct c <;> simp [and_assoc]

/-- The loop looks at the lines up to line 50 and at no other. -/
theorem scanLines_eq (t : QCharTable) (lines : List QString) (lineCnt : Nat) :
    scanLines t lines lineCnt
      = (lines.take (50 - lineCnt)).any (fun line => line.any (binaryChar t)) := by
  induction lines generalizing lineCnt with
  | nil => simp [scanLines]
  | cons line rest ih =>
    unfold scanLines
    by_cases h : lineCnt + 1 > 50
    · have h0 : 50 - lineCnt = 0 := by omega
      simp [h, h0]
    · have h1 : 50 - lineCnt = (50 - (lineCnt + 1)) + 1 := by omega
      rw [if_neg h, ih, h1, List.take_succ_cons, List.any_cons]
      cases line.any (binaryChar t) <;> simp

end Lemmas

section Lemmas

theorem scanLines_iff (t : QCharTable) (lines : List QString) :
    scanLines t lines 0 = true ↔ binaryInFirst50 t lines := by
  rw [scanLines_eq]
  unfold binaryInFirst50
  simp only [Nat.sub_zero, List.any_eq_true]
  constructor
  · rintro ⟨line, hl, c, hc, hb⟩
    exact ⟨line, hl, c, hc, (binaryChar_iff t c).mp hb⟩
  · rintro ⟨line, hl, c, hc, hb⟩
    exact ⟨line, hl, c, hc, (binaryChar_iff t c).mpr hb⟩

end Lemmas

/-- C13: for a readable file, given by its lines and its size in bytes,
`readFile` yields the read-only `unsupported format` text if and only if some
character within the first 50 lines is not printable, not a space, not
punctuation and not of category Mn, So, Cs or Cf (characters from line 51 on
are not looked at); otherwise it yields the read-only `too large` text if and
only if the size is greater than 1048576 bytes; otherwise it yields the full
content of the file, editable. -/
theorem readFile_classifies (t : QCharTable) (f : DiskFile)
    (hopens : f.opens = true) (hreopens : f.reopens = true) :
    (readFile t f TextPane.fresh = unsupportedPane ↔ binaryInFirst50 t f.lines)
    ∧ (¬ binaryInFirst50 t f.lines →
        (readFile t f TextPane.fresh = tooLargePane ↔ f.size > 1048576))
    ∧ (¬ binaryInFirst50 t f.lines → ¬ f.size > 1048576 →
        readFile t f TextPane.fresh
          = { readOnly := false, lnaVisible := true, plainText := f.content }) := by
  have hne : tooLargePane ≠ unsupportedPane := by decide
  have hmax : MAX_BUFFER_SIZE = 1048576 := by decide
  have hbad : binaryInFirst50 t f.lines → readFile t f TextPane.fresh = unsupportedPane := by
    intro hb
    have hs := (scanLines_iff t f.lines).mpr hb
    unfold readFile
    simp [hopens, hs, unsupportedPane]
  have hlarge : ¬ binaryInFirst50 t f.lines → f.size > 1048576 →
      readFile t f TextPane.fresh = tooLargePane := by
    intro hb hsz
    have hs : scanLines t f.lines 0 = false := by
      cases h : scanLines t f.lines 0
      · rfl
      · exact absurd ((scanLines_iff t f.lines).mp h) hb
    unfold readFile
    simp [hopens, hreopens, hs, hmax, hsz, tooLargePane]
  have hload : ¬ binaryInFirst50 t f.lines → ¬ f.size > 1048576 →
      readFile t f TextPane.fresh
        = { readOnly := false, lnaVisible := true, plainText := f.content } := by
    intro hb hsz
    have hs : scanLines t f.lines 0 = false := by
      cases h : scanLines t f.lines 0
      · rfl
      · exact absurd ((scanLines_iff t f.lines).mp h) hb
    unfold readFile
    simp [hopens, hreopens, hs, hmax, hsz, TextPane.fresh]
  refine ⟨⟨?_, hbad⟩, ?_, hload⟩
  · intro hres
    by_contra hb
    by_cases hsz : f.size > 1048576
    · rw [hlarge hb hsz] at hres
      exact hne hres
    · rw [hload hb hsz] at hres
      have := congrArg TextPane.readOnly hres
      simp [unsupportedPane] at this
  · intro hb
    refine ⟨?_, hlarge hb⟩
    intro hres
    by_contra hsz
    rw [hload hb hsz] at hres
    have := congrArg TextPane.readOnly hres
    simp [tooLargePane] at this

/-- Witness for C13: a file of exactly 1 MiB whose only control character
stands on line 51 is loaded for editing; a control character on line 1 gives
the `unsupported format` text; a text file of 1 MiB and one byte gives the
`too large` text. -/
theorem readFile_classifies_witness :
    readFile asciiTable nulOnLine51 TextPane.fresh
        = { readOnly := false, lnaVisible := true, plainText := nulOnLine51.content }
    ∧ readFile asciiTable nulOnLine1 TextPane.fresh = unsupportedPane
    ∧ readFile asciiTable oneByteOver TextPane.fresh = tooLargePane :=
  ⟨(readFile_classifies asciiTable nulOnLine51 rfl rfl).2.2
      (fun h => absurd ((scanLines_iff asciiTable nulOnLine51.lines).mpr h) (by decide))
      (by decide),
    (readFile_classifies asciiTable nulOnLine1 rfl rfl).1.mpr
      ((scanLines_iff asciiTable nulOnLine1.lines).mp (by decide)),
    ((readFile_classifies asciiTable oneByteOver rfl rfl).2.1
      (fun h => absurd ((scanLines_iff asciiTable oneByteOver.lines).mpr h) (by decide))).mpr
      (by decide)⟩

/-- C14, the code at the failing inputs: the file exists and its editor tab is
open.  A `DELETE` whose confirmation is answered with `No` removes nothing,
and a `RENAME` confirmed with an empty name renames nothing, yet both emit
`operateFile`, and `handleFileOperation` closes the tab of the file. -/
theorem handleRawFileOperation_emits_without_operation :
    carriedOut deleteDeclined FileOperation.DELETE = false
    ∧ handleRawFileOperation deleteDeclined mainCpp FileOperation.DELETE
        = [TreeEffect.operateFile mainCpp FileOperation.DELETE]
    ∧ carriedOut renameEmptyName FileOperation.RENAME = false
    ∧ handleRawFileOperation renameEmptyName mainCpp FileOperation.RENAME
        = [TreeEffect.operateFile mainCpp FileOperation.RENAME]
    ∧ handleFileOperation [Tab.edit mainCpp] mainCpp FileOperation.DELETE = [Tab.welcome]
    ∧ handleFileOperation [Tab.edit mainCpp] mainCpp FileOperation.RENAME = [Tab.welcome] := by
  decide

/-- What `handleRawFileOperation` does keep of C14: no `operateFile` for a
missing file, for an `OPEN_LOCALLY`, `RENAME` or `DELETE` whose call fails, and
for a `RENAME` whose dialog is cancelled. -/
theorem handleRawFileOperation_no_emit (env : Answers) (filename : QString)
    (operation : FileOperation)
    (h : env.fileExists = false
      ∨ (operation = FileOperation.OPEN_LOCALLY ∧ env.openUrl = false)
      ∨ (operation = FileOperation.RENAME ∧ env.getTextOk = false)
      ∨ (operation = FileOperation.RENAME ∧ env.getTextOk = true ∧ env.newName ≠ []
          ∧ env.rename = false)
      ∨ (operation = FileOperation.DELETE ∧ env.confirmYes = true ∧ env.remove = false)) :
    ∀ x ∈ handleRawFileOperation env filename operation,
      x ≠ TreeEffect.operateFile filename operation := by
  unfold handleRawFileOperation
  rcases h with h | ⟨hop, h⟩ | ⟨hop, h⟩ | ⟨hop, h1, h2, h3⟩ | ⟨hop, h1, h2⟩
  · simp [h]
  · subst hop
    cases env.fileExists <;> simp [h]
  · subst hop
    cases env.fileExists <;> simp [h]
  · subst hop
    have hne : env.newName.isEmpty = false := isEmpty_eq_false_of_ne_nil _ h2
    cases env.fileExists <;> simp [h1, hne, h3]
  · subst hop
    cases env.fileExists <;> simp [h1, h2]

end NeverJudge
